import Mathlib

/-!
Verification development for the `bitrix24_api_client` library.

Shallow embedding of the library's core: the query encoder
(`utils/buildQuery.js`), OAuth endpoint derivation (`utils/requestUtils.js`),
request validation (`utils/validationUtils.js`), the error envelope
(`utils/errorHandler.js`), the per-tenant rate limiter
(`utils/requestLimiter.js`), the HTTP transport (`utils/bitrixFetch.js`),
the logger's redaction pipeline (`Logger` in `utils/logFetch.js`) and the
call orchestrator (`index.js`, class `Bitrix24API`).

Modelling conventions:
* JavaScript values are modelled by the inductive `JsVal` (strings, integer
  numbers, booleans, `null`, `undefined`, objects as ordered field lists,
  arrays).  Host objects that never carry the data the claims speak about
  (`URLSearchParams` instances inside log payloads, `Error` instances,
  `AbortSignal`) are outside the fragment and noted where skipped.
* Machine time is `ℕ` milliseconds; fractional bucket arithmetic is `ℚ`
  (the JS doubles behave exactly on the constants involved, e.g.
  `50 * 0.9 === 45`).
* Host functions that the library merely calls (`fetch`, `JSON.parse`,
  `new URL`, `Math.random`) are oracles passed as parameters.
* Fallible code returns `Option`/sum-like results; a thrown JS exception is
  an explicit `thrown` outcome.
-/

namespace B24

/-! ### JavaScript-like values -/

mutual

/-- JavaScript values in the JSON-like fragment the library manipulates:
strings, (integer) numbers, booleans, `null`, `undefined`, objects and
arrays. Objects keep their insertion order, as JS objects do. -/
inductive JsVal where
  | str (s : String)
  | num (n : Int)
  | boolVal (b : Bool)
  | jsNull
  | undef
  | obj (fs : JsFields)
  | arr (es : JsElems)
  deriving DecidableEq, Repr

/-- Ordered field list of a JS object. -/
inductive JsFields where
  | nil
  | cons (k : String) (v : JsVal) (rest : JsFields)
  deriving DecidableEq, Repr

/-- Element list of a JS array. -/
inductive JsElems where
  | nil
  | cons (v : JsVal) (rest : JsElems)
  deriving DecidableEq, Repr

end

/-- Field lookup, i.e. JavaScript property access `o[k]` on a plain object
(first binding wins; JS objects cannot repeat keys). -/
def JsFields.find? : JsFields → String → Option JsVal
  | .nil, _ => none
  | .cons k v rest, k0 => if k = k0 then some v else rest.find? k0

/-- Property access `v[k]`: `none` models JavaScript `undefined` for
missing properties or non-object bases. -/
def JsVal.getField : JsVal → String → Option JsVal
  | .obj fs, k => fs.find? k
  | _, _ => none

/-- JavaScript truthiness of a value in our fragment: `""`, `0`, `false`,
`null` and `undefined` are falsy, everything else is truthy. -/
def JsVal.truthy : JsVal → Bool
  | .str s => !(s = "")
  | .num n => !(n = 0)
  | .boolVal b => b
  | .jsNull => false
  | .undef => false
  | .obj _ => true
  | .arr _ => true

/-- Truthiness of a property access result (`undefined` when absent). -/
def fieldTruthy (v : JsVal) (k : String) : Bool :=
  match v.getField k with
  | some w => w.truthy
  | none => false

/-- The JS test `typeof v === 'object'` (true for objects, arrays and
`null`). -/
def JsVal.typeofObject : JsVal → Bool
  | .obj _ => true
  | .arr _ => true
  | .jsNull => true
  | _ => false

/-! ### String helpers (JS `String.prototype.includes`, case folding) -/

/-- Substring test on character lists: `needle` occurs contiguously in
`hay`.  Models JS `hay.includes(needle)`. -/
def charSeqIn (needle : List Char) : List Char → Bool
  | [] => needle.isEmpty
  | c :: rest => needle.isPrefixOf (c :: rest) || charSeqIn needle rest

/-- JS `hay.includes(needle)` on strings. -/
def strIncludes (hay needle : String) : Bool :=
  charSeqIn needle.toList hay.toList

/-- Case-insensitive substring test; models a `/needle/i` regex test for a
literal alternative (ASCII, which is all the library uses). -/
def strIncludesInsens (hay needle : String) : Bool :=
  charSeqIn (needle.toList.map Char.toLower) (hay.toList.map Char.toLower)

/-- JS `s.toLowerCase()` restricted to ASCII. -/
def strLower (s : String) : String :=
  ⟨s.toList.map Char.toLower⟩

/-! ### Query encoder — `utils/buildQuery.js`, `httpBuildQuery`

The encoder accumulates into a `URLSearchParams`; we model that accumulator
as an ordered list of key/value string pairs with `URLSearchParams.set`
semantics (setting an existing key overwrites the first occurrence in place
and removes later duplicates).  The percent-encoding applied by the host
when the parameter list is put on the wire is outside the model. -/

/-- `URLSearchParams.set(k, v)`: replace the first binding of `k` in place
and drop any later bindings, else append. -/
def setParam : List (String × String) → String → String → List (String × String)
  | [], k, v => [(k, v)]
  | (k0, v0) :: rest, k, v =>
    if k0 = k then (k, v) :: rest.filter (fun p => !(p.1 = k))
    else (k0, v0) :: setParam rest k v

/-- Scalar conversion of `httpBuildQuery`:
`val = val === true ? '1' : val; val = val === false ? '0' : val;
val = val === 0 ? '0' : val; val ||= '';` followed by the string coercion
`URLSearchParams.set` performs. -/
def scalarToParam : JsVal → String
  | .boolVal true => "1"
  | .boolVal false => "0"
  | .num n => if n = 0 then "0" else toString n
  | .str s => s
  | .jsNull => ""
  | .undef => ""
  | .obj _ => ""
  | .arr _ => ""

mutual

/-- The `for (const k of Object.keys(queryData))` loop of `httpBuildQuery`
over an object's fields. `tempKey` is the bracket-notation prefix. -/
def buildQueryFields : JsFields → Option String → List (String × String) → List (String × String)
  | .nil, _, qs => qs
  | .cons k v rest, tempKey, qs =>
    let key := match tempKey with
      | none => k
      | some t => t ++ "[" ++ k ++ "]"
    let qs' := match v with
      | .obj fs => buildQueryFields fs (some key) qs
      | .arr es => buildQueryElems es 0 (some key) qs
      | sc => setParam qs key (scalarToParam sc)
    buildQueryFields rest tempKey qs'

/-- The same loop over an array (whose `Object.keys` are the stringified
indices `"0"`, `"1"`, …). -/
def buildQueryElems : JsElems → Nat → Option String → List (String × String) → List (String × String)
  | .nil, _, _, qs => qs
  | .cons v rest, i, tempKey, qs =>
    let key := match tempKey with
      | none => toString i
      | some t => t ++ "[" ++ toString i ++ "]"
    let qs' := match v with
      | .obj fs => buildQueryFields fs (some key) qs
      | .arr es => buildQueryElems es 0 (some key) qs
      | sc => setParam qs key (scalarToParam sc)
    buildQueryElems rest (i + 1) tempKey qs'

end

/-- `httpBuildQuery(queryData)` from `utils/buildQuery.js`: a falsy
argument yields no parameters (the source returns `''` there), an object or
array is traversed in insertion order building PHP-style bracket keys.
Nested objects recurse because `typeof queryData[k] === 'object'` and the
value is not `null`. -/
def httpBuildQuery : JsVal → List (String × String)
  | .obj fs => buildQueryFields fs none []
  | .arr es => buildQueryElems es 0 none []
  | _ => []

/-! ### OAuth endpoint derivation — `utils/requestUtils.js` and
`Bitrix24API.#prepareOAuthRequest` (`src/index.js`) -/

/-- The library-wide default OAuth endpoint
(`Bitrix24API.#OAUTH_TOKEN_ENDPOINT`). -/
def OAUTH_TOKEN_ENDPOINT : String := "https://oauth.bitrix.info/oauth/token/"

/-- Does `s` match the regex `^https:\/\/oauth\.bitrix\d*\.(tech|info)\/rest$`
of `convertToOAuthEndpoint`?  `\d*` is greedy and followed by a literal dot,
so maximal-munch `dropWhile isDigit` is exact. -/
def matchOAuthRest (s : String) : Bool :=
  let cs := s.toList
  let pre := "https://oauth.bitrix".toList
  pre.isPrefixOf cs &&
    (let tail := (cs.drop 20).dropWhile Char.isDigit
     tail = ".tech/rest".toList || tail = ".info/rest".toList)

/-- The trailing-slash normalisation of `convertToOAuthEndpoint`:
`serverEndpoint.endsWith('/') ? serverEndpoint.slice(0, -1) : serverEndpoint`. -/
def stripTrailingSlash (s : String) : String :=
  if s.toList.getLast? = some '/' then s.dropRight 1 else s

/-- `convertToOAuthEndpoint(serverEndpoint)` from `utils/requestUtils.js`:
strip one trailing slash, test the exact regex, and on success replace the
final `/rest` by `/oauth/token/`.  The source returns `false` on failure;
we model that as `none`. -/
def convertToOAuthEndpoint (serverEndpoint : String) : Option String :=
  let normalizedUrl := stripTrailingSlash serverEndpoint
  if matchOAuthRest normalizedUrl then
    some (normalizedUrl.dropRight 5 ++ "/oauth/token/")
  else none

/-- Modelled from the spec: `isValidOAuthEndpoint` is imported from
`utils/validationUtils` in `src/index.js`, but its definition is not among
the source files (the shipped `validationUtils` exports only `validateAuth`
and `validateRequest`).  The spec says "if that derivation fails the shape
test, use the library-wide default", so the model accepts exactly the
successful conversions (and rejects the `false` a failed conversion
returns). -/
def isValidOAuthEndpoint : Option String → Bool
  | some _ => true
  | none => false

/-- The endpoint computation of `Bitrix24API.#prepareOAuthRequest`: start
from the default, and if the credential record carries a truthy
`server_endpoint`, use its conversion when `isValidOAuthEndpoint` accepts
it. -/
def deriveOAuthEndpoint (serverEndpoint : Option String) : String :=
  match serverEndpoint with
  | none => OAUTH_TOKEN_ENDPOINT
  | some s =>
    if s = "" then OAUTH_TOKEN_ENDPOINT
    else
      let converted := convertToOAuthEndpoint s
      if isValidOAuthEndpoint converted then converted.getD OAUTH_TOKEN_ENDPOINT
      else OAUTH_TOKEN_ENDPOINT

/-- The OAuth endpoint shape stated by the spec, amended to tolerate a
single trailing slash: the exact regex shape, optionally followed by one
final `/` (which the code strips before testing). -/
def specOAuthShape (s : String) : Bool :=
  matchOAuthRest s ||
    (s.toList.getLast? = some '/' && matchOAuthRest (s.dropRight 1))

/-- The conversion the spec describes, on a shape-matching URL: strip the
final `/rest` and append `/oauth/token/`. -/
def specReplaceRest (s : String) : String :=
  s.dropRight 5 ++ "/oauth/token/"

/-! ### Error envelope — `utils/errorHandler.js` and validation —
`utils/validationUtils.js` -/

/-- A host-language exception value: `name`, `message`, optional `code`
and `stack` (the properties the library reads). -/
structure JsErr where
  name : String
  message : String
  code : Option String := none
  stack : Option String := none
  deriving DecidableEq, Repr

/-- `handleError(err)` from `utils/errorHandler.js`: the uniform
`module_error` envelope `{ error, description, stack }` with
`description = err.name + ' ' + err.message`. -/
def handleError (e : JsErr) : JsVal :=
  .obj (.cons "error" (.str "module_error")
    (.cons "description" (.str (e.name ++ " " ++ e.message))
      (.cons "stack" (match e.stack with | some s => .str s | none => .undef)
        .nil)))

/-- `validateAuth(auth)` from `utils/validationUtils.js`:
`!!(access_token && domain && refresh_token && client_endpoint)`. -/
def validateAuth (auth : JsVal) : Bool :=
  fieldTruthy auth "access_token" && fieldTruthy auth "domain" &&
    fieldTruthy auth "refresh_token" && fieldTruthy auth "client_endpoint"

/-- The static client configuration fields `validateRequest` consults
(`Bitrix24API.config`); `none` models the `null` defaults. -/
structure Cfg where
  client_id : Option String := none
  client_secret : Option String := none
  deriving DecidableEq, Repr

/-- Truthiness of an optional configuration string (`null` and `''` are
falsy). -/
def optTruthy : Option String → Bool
  | none => false
  | some s => !(s = "")

/-- `validateRequest(method, auth, config)` from
`utils/validationUtils.js`.  It throws on the first failed check; we
return the thrown error, `none` meaning no throw.  The `auth` argument is
`Option JsVal`, `none` standing for a missing (`undefined`) argument. -/
def validateRequest (method : String) (auth : Option JsVal) (cfg : Cfg) : Option JsErr :=
  if method = "" then some ⟨"Error", "method parameter is required", none, none⟩
  else
    match auth with
    | none => some ⟨"Error", "auth object is required", none, none⟩
    | some a =>
      if !a.truthy || !a.typeofObject then
        some ⟨"Error", "auth object is required", none, none⟩
      else if !optTruthy cfg.client_id then some ⟨"Error", "client_id required", none, none⟩
      else if !optTruthy cfg.client_secret then some ⟨"Error", "client_secret required", none, none⟩
      else none

/-! ### Rate limiter — `utils/requestLimiter.js`, class `RequestLimiter`

The exported singleton is `new RequestLimiter()` with the default options,
so the tunables are fixed at their defaults. -/

/-- `MAX_BUCKET` (bucket volume, units). -/
def MAX_BUCKET : ℚ := 50
/-- `LEAK_RATE` (units per second). -/
def LEAK_RATE : ℚ := 2
/-- `MIN_REQUEST_INTERVAL` (ms). -/
def MIN_REQUEST_INTERVAL : ℕ := 150
/-- `MAX_BLOCK_TIME` (ms). -/
def MAX_BLOCK_TIME : ℕ := 5000

/-- Per-portal limiter state (`getPortalState`'s record).  Queued
admissions are task identifiers in arrival order. -/
structure PortalState where
  counter : ℚ
  lastUpdate : ℕ
  isBlocked : Bool
  blockUntil : ℕ
  lastRequestTime : ℕ
  queue : List ℕ
  isProcessingQueue : Bool
  totalRequests : ℕ
  deriving DecidableEq, Repr

/-- The fresh portal record `getPortalState` creates on first use for a
domain, at creation time `now`. -/
def freshPortal (now : ℕ) : PortalState :=
  { counter := 0, lastUpdate := now, isBlocked := false, blockUntil := 0,
    lastRequestTime := 0, queue := [], isProcessingQueue := false,
    totalRequests := 0 }

/-- `updateCounter(portal)`: leak `elapsedSeconds * LEAK_RATE` (not below
zero) and clear an expired block.  Time is monotonic (`Date.now`), so the
`ℕ` subtraction matches the JS subtraction on every reachable state. -/
def updateCounter (now : ℕ) (p : PortalState) : PortalState :=
  let elapsedSeconds : ℚ := ((now - p.lastUpdate : ℕ) : ℚ) / 1000
  let p1 :=
    if 0 < elapsedSeconds then
      { p with counter := max 0 (p.counter - elapsedSeconds * LEAK_RATE),
               lastUpdate := now }
    else p
  if p1.isBlocked && decide (p1.blockUntil < now) then { p1 with isBlocked := false } else p1

/-- The limit-breach test of `RequestLimiter.handleResponse`:
`result.error === 'QUERY_LIMIT_EXCEEDED'`, or a string
`result.error_description` containing `'limit exceeded'`, or
`result.status === 503`. -/
def isLimitError (result : JsVal) : Bool :=
  (result.getField "error" = some (.str "QUERY_LIMIT_EXCEEDED")) ||
  (match result.getField "error_description" with
   | some (.str d) => strIncludes d "limit exceeded"
   | _ => false) ||
  (result.getField "status" = some (.num 503))

/-- `RequestLimiter.handleResponse(domain, result)` (the spec's `observe`)
restricted to one portal's state: on a limit error, impose the hard block
until `now + MAX_BLOCK_TIME` and prefill the bucket to
`MAX_BUCKET * 0.9`.  A falsy `result` is ignored, as in the source. -/
def handleResponse (now : ℕ) (result : JsVal) (p : PortalState) : PortalState :=
  if !result.truthy then p
  else if isLimitError result then
    { p with isBlocked := true, blockUntil := now + MAX_BLOCK_TIME,
             counter := MAX_BUCKET * (9 / 10) }
  else p

/-! #### The limiter as a transition system (one portal)

`throttle` pushes the admission task at the tail of the queue;
`processQueue` repeatedly decays the counter, waits out blocks, intervals
and a full bucket (all of which leave the queue untouched) and then shifts
the head task and runs its `execute` callback, which increments the
counter, stamps `lastRequestTime` and resolves the admission promise.
Events carry the `Date.now()` value at which they run. -/

/-- One observable limiter event on a portal. -/
inductive LimEvent where
  /-- `throttle(domain, method)`: enqueue task `t`. -/
  | enq (t : ℕ) (now : ℕ)
  /-- an `updateCounter` call inside the processing loop (after a block
  wait, a bucket wait, or at the top of an iteration). -/
  | tick (now : ℕ)
  /-- `_executeNextTask`: shift the head task and run its `execute`. -/
  | release (now : ℕ)
  /-- `handleResponse(domain, result)`. -/
  | observe (result : JsVal) (now : ℕ)
  deriving Repr

/-- Effect of one event on a portal; `release` additionally reports the
task it resolved, and is impossible on an empty queue (the loop has
exited). -/
def limStep (p : PortalState) : LimEvent → Option (PortalState × Option ℕ)
  | .enq t _ =>
    some ({ p with queue := p.queue ++ [t], totalRequests := p.totalRequests + 1 }, none)
  | .tick now => some (updateCounter now p, none)
  | .release now =>
    match p.queue with
    | [] => none
    | t :: rest =>
      some ({ p with queue := rest, counter := p.counter + 1, lastRequestTime := now }, some t)
  | .observe r now => some (handleResponse now r p, none)

/-- Run a sequence of events from a portal state, collecting the released
tasks in order (inapplicable events are skipped). -/
def limRun (p : PortalState) : List LimEvent → PortalState × List ℕ
  | [] => (p, [])
  | e :: es =>
    match limStep p e with
    | none => limRun p es
    | some (p', none) => limRun p' es
    | some (p', some t) =>
      let r := limRun p' es
      (r.1, t :: r.2)

/-- The tasks a list of events enqueues, in order. -/
def enqueuedOf : List LimEvent → List ℕ
  | [] => []
  | .enq t _ :: es => t :: enqueuedOf es
  | _ :: es => enqueuedOf es

/-! ### HTTP transport — `utils/bitrixFetch.js`

`bitrixFetch(url, params, options)` performs one `fetch` per entry,
decrementing `options.remainingTryes` on entry (initialised to
`options.tryes` on the first entry), and re-enters itself for redirects,
5xx retries and retryable network errors while `remainingTryes > 0`.
The host `fetch` + `parseResponse` pair is an oracle mapping the 0-based
global attempt index to an outcome; `Math.random` is a jitter oracle
indexed by the backoff attempt number.  `parseResponse`'s internals
(content-type dispatch) live behind the oracle's parsed body. -/

/-- Outcome of one host `fetch` attempt: either the promise rejected with
an error, or a response arrived with an HTTP status, an optional
`Location` header and a parsed body (the value `parseResponse` produces). -/
inductive FetchOutcome where
  | throwErr (e : JsErr)
  | resp (status : ℕ) (location : Option String) (body : JsVal)

/-- What `bitrixFetch` returns: a parsed body (2xx, or the `expired_token`
4xx envelope passed through), a tagged `BitrixApiError` (identified by its
`error` kind and the response status it carries), or — for a
non-retryable fetch exception — the raw host error object itself. -/
inductive FetchRes where
  | body (v : JsVal)
  | apiErr (kind : String) (status : Option ℕ)
  | rawErr (e : JsErr)
  deriving DecidableEq, Repr

/-- Trace of one `bitrixFetch` call: the returned value, the number of
HTTP attempts performed (entries into `fetch`), and the backoff sleeps as
pairs of (0-based index of the attempt the sleep precedes, slept
milliseconds). -/
structure FetchTrace where
  result : FetchRes
  attempts : ℕ
  sleeps : List (ℕ × ℤ)
  deriving DecidableEq, Repr

/-- Transport configuration and host oracles for one logical request. -/
structure FetchCfg where
  tryes : ℤ
  pause : ℚ
  oracle : ℕ → FetchOutcome
  jitter : ℕ → ℚ

/-- JavaScript `1 << attempt`: `<<` is a 32-bit operation — the shift
count is taken mod 32 and the result is read back as a signed Int32, so
`1 << 31` is `-2^31` and `1 << 32` is `1` again. -/
def jsShl1 (attempt : ℕ) : ℤ :=
  if attempt % 32 = 31 then -(2 ^ 31) else 2 ^ (attempt % 32)

/-- `waitExponentialBackoff(baseDelay, attempt)` with the `Math.random()`
draw `jit`: `0` base delay skips the sleep (`if (!baseDelay) return 0`),
otherwise sleep `Math.floor(pause + jit * 0.3 * pause)` with
`pause = baseDelay * (1 << attempt)` — the shift wrapping at Int32 like
the source's bit shift. -/
def waitBackoff (baseDelay : ℚ) (attempt : ℕ) (jit : ℚ) : Option ℤ :=
  if baseDelay = 0 then none
  else
    let exponentialPause := baseDelay * (jsShl1 attempt : ℚ)
    some ⌊exponentialPause + jit * (3 / 10) * exponentialPause⌋

/-- Cons an optional sleep onto a sleep list. -/
def consSleep (i : ℕ) : Option ℤ → List (ℕ × ℤ) → List (ℕ × ℤ)
  | none, l => l
  | some d, l => (i, d) :: l

/-- `isRetryable(error)` from `utils/bitrixFetch.js`. -/
def isRetryable (e : JsErr) : Bool :=
  e.code = some "ECONNRESET" || e.code = some "ETIMEDOUT" ||
  e.code = some "ENETUNREACH" || e.code = some "EPIPE" ||
  e.code = some "ECONNABORTED" || e.code = some "ENOTFOUND" ||
  e.code = some "ECONNREFUSED" ||
  strIncludesInsens e.message "timeout" || strIncludesInsens e.message "connection reset"

/-- One entry of `bitrixFetch` and its recursive re-entries.  `idx` is the
0-based global attempt index (used to query the oracle), `rem` is
`options.remainingTryes` *before* the on-entry decrement.  Branches follow
the source's `switch (statusGroup)` with `handleRedirect`,
`handleClientError`, `handleServerError` and `handleFetchError`. -/
def fetchGo (cfg : FetchCfg) (idx : ℕ) (rem : ℤ) : FetchTrace :=
  let rem' := rem - 1
  match cfg.oracle idx with
  | .throwErr e =>
    if isRetryable e then
      if 0 < rem' then
        let a := (cfg.tryes - rem').toNat
        let sl := waitBackoff cfg.pause a (cfg.jitter a)
        let t := fetchGo cfg (idx + 1) rem'
        { t with attempts := t.attempts + 1, sleeps := consSleep (idx + 1) sl t.sleeps }
      else { result := .apiErr "network_error" none, attempts := 1, sleeps := [] }
    else { result := .rawErr e, attempts := 1, sleeps := [] }
  | .resp status loc body =>
    let statusGroup := status / 100
    if statusGroup = 2 then { result := .body body, attempts := 1, sleeps := [] }
    else if statusGroup = 3 then
      match loc with
      | none => { result := .apiErr "redirect_error" (some status), attempts := 1, sleeps := [] }
      | some _ =>
        if rem' ≤ 0 then
          { result := .apiErr "redirect_error" (some status), attempts := 1, sleeps := [] }
        else
          let t := fetchGo cfg (idx + 1) rem'
          { t with attempts := t.attempts + 1 }
    else if statusGroup = 4 then
      if body.getField "error" = some (.str "expired_token") then
        { result := .body body, attempts := 1, sleeps := [] }
      else { result := .apiErr "client_error" (some status), attempts := 1, sleeps := [] }
    else if statusGroup = 5 then
      if 0 < rem' then
        let a := (cfg.tryes - rem').toNat
        let sl := waitBackoff cfg.pause a (cfg.jitter a)
        let t := fetchGo cfg (idx + 1) rem'
        { t with attempts := t.attempts + 1, sleeps := consSleep (idx + 1) sl t.sleeps }
      else { result := .apiErr "server_error" (some status), attempts := 1, sleeps := [] }
    else { result := .apiErr "unexpected_status" (some status), attempts := 1, sleeps := [] }
termination_by rem.toNat
decreasing_by all_goals omega

/-- `bitrixFetch(url, params, options)` with `options.remainingTryes`
initially `undefined`, hence set to `options.tryes` before the first
entry's decrement. -/
def bitrixFetch (cfg : FetchCfg) : FetchTrace :=
  fetchGo cfg 0 cfg.tryes

/-! ### Logger redaction pipeline — class `Logger` (`utils/logFetch.js`)

`Logger.log(level, message, data)` (non-`Error` path) emits
`JSON.stringify(prepareForStringify(this._processLogData(data)))`; the
theorems below are about that prepared tree, whose string values
`JSON.stringify` preserves verbatim.  Host collaborators are oracles:
`maskUrl` stands for `_maskSensitiveDataInUrl` (which depends on the host
`URL` parser) and `jsonParse` for `JSON.parse`.  `URLSearchParams` bodies,
`Error` instances and aliased/cyclic object graphs are outside the
`JsVal` fragment (trees are acyclic, so the `WeakSet` circularity branch
never fires), and is noted where the corresponding source branch is
skipped. -/

/-- `Logger.SENSITIVE_PARAMS`. -/
def SENSITIVE_PARAMS : List String :=
  ["auth", "access_token", "refresh_token", "client_secret", "token",
   "password", "key", "secret", "code"]

/-- The hard-coded redaction list inside `_safeStringify`'s plain-object
loop. -/
def SAFE_STRINGIFY_REDACT : List String :=
  ["auth", "access_token", "refresh_token", "Authorization"]

/-- The fixed redaction placeholder. -/
def REDACTED : String := "[REDACTED]"

/-- The depth-cap placeholder of `_safeStringify`. -/
def DEPTH_LIMIT_MSG : String := "[Depth limit exceeded]"

/-- The character class `[a-z]` under the `/i` flag. -/
def latinLetter (c : Char) : Bool :=
  ('a' ≤ c && c ≤ 'z') || ('A' ≤ c && c ≤ 'Z')

/-- The character class `[A-Za-z0-9+/=]`. -/
def base64Char (c : Char) : Bool :=
  ('A' ≤ c && c ≤ 'Z') || ('a' ≤ c && c ≤ 'z') || ('0' ≤ c && c ≤ '9') ||
  c = '+' || c = '/' || c = '='

/-- The test `/^data:image\/[a-z]+;base64,/i.test(value)`; the `[a-z]+` is
greedy and followed by `;`, so maximal munch is exact. -/
def dataImageMatch (cs : List Char) : Bool :=
  ("data:image/".toList.isPrefixOf (cs.map Char.toLower)) &&
    (let rest := cs.drop 11
     let letters := rest.takeWhile latinLetter
     !letters.isEmpty &&
       ";base64,".toList.isPrefixOf ((rest.dropWhile latinLetter).map Char.toLower))

/-- `Logger._maskBase64String(value)` on strings (non-strings are returned
unchanged by the source and by every caller in the fragment). -/
def maskBase64String (v : String) : String :=
  let cs := v.toList
  if dataImageMatch cs then
    let letters := (cs.drop 11).takeWhile latinLetter
    let ty := if letters.isEmpty then "unknown" else (⟨letters⟩ : String)
    "[IMAGE BASE64 DATA type=" ++ ty ++ ", length=" ++ toString v.length ++ "]"
  else if 500 < v.length && cs.all base64Char then
    "[BASE64 DATA length=" ++ toString v.length ++ "]"
  else v

mutual

/-- `Logger._processNestedObject(obj)`: non-objects are returned
unchanged; objects and arrays are shallow-copied with sensitive keys
redacted, string values base64- and URL-masked, and object values
processed recursively. -/
def procNested (maskUrl : String → String) : JsVal → JsVal
  | .obj fs => .obj (procNestedFields maskUrl fs)
  | .arr es => .arr (procNestedElems maskUrl es)
  | v => v

/-- The per-key body of `_processNestedObject`'s `forEach`: redact
sensitive keys, mask base64 and URL-looking strings, recurse into
objects. -/
def procFieldVal (maskUrl : String → String) (k : String) (v : JsVal) : JsVal :=
  if SENSITIVE_PARAMS.contains k then .str REDACTED
  else
    match v with
    | .str s =>
      let s1 := maskBase64String s
      if strIncludes s1 "http" || strIncludes (strLower k) "url" then .str (maskUrl s1)
      else .str s1
    | .obj fs => .obj (procNestedFields maskUrl fs)
    | .arr es => .arr (procNestedElems maskUrl es)
    | other => other

/-- The `Object.keys(result).forEach` loop of `_processNestedObject` over
an object's fields. -/
def procNestedFields (maskUrl : String → String) : JsFields → JsFields
  | .nil => .nil
  | .cons k v rest => .cons k (procFieldVal maskUrl k v) (procNestedFields maskUrl rest)

/-- The same `forEach` body for an array copy: the keys are index strings,
which are never sensitive and never contain `'url'`. -/
def procElemVal (maskUrl : String → String) (v : JsVal) : JsVal :=
  match v with
  | .str s =>
    let s1 := maskBase64String s
    if strIncludes s1 "http" then .str (maskUrl s1) else .str s1
  | .obj fs => .obj (procNestedFields maskUrl fs)
  | .arr es => .arr (procNestedElems maskUrl es)
  | other => other

/-- The loop of `_processNestedObject` over an array copy. -/
def procNestedElems (maskUrl : String → String) : JsElems → JsElems
  | .nil => .nil
  | .cons v rest => .cons (procElemVal maskUrl v) (procNestedElems maskUrl rest)

end

/-- `Logger._formatRequestBody(body)` in the fragment (the
`URLSearchParams` branch is outside it): strings are `JSON.parse`d when
possible and truncated to 500 characters otherwise; objects pass through;
everything else becomes `undefined`. -/
def formatRequestBody (jsonParse : String → Option JsVal) : JsVal → JsVal
  | .str s =>
    match jsonParse s with
    | some j => j
    | none => if 500 < s.length then .str ((s.take 500) ++ "...") else .str s
  | .obj fs => .obj fs
  | .arr es => .arr es
  | _ => ( .undef)

/-- Delete a property (`delete o[k]`). -/
def delField : JsFields → String → JsFields
  | .nil, _ => .nil
  | .cons k v rest, k0 => if k = k0 then delField rest k0 else .cons k v (delField rest k0)

/-- Apply `f` to the (unique) binding of `k0`, if present. -/
def mapField (fs : JsFields) (k0 : String) (f : JsVal → JsVal) : JsFields :=
  match fs with
  | .nil => .nil
  | .cons k v rest => if k = k0 then .cons k (f v) rest else .cons k v (mapField rest k0 f)

/-- The `in` test (`'body' in processedData`). -/
def hasFieldB (fs : JsFields) (k : String) : Bool :=
  (JsFields.find? fs k).isSome

/-- The `processedData.url &&= this._maskSensitiveDataInUrl(...)` step:
falsy values are kept, truthy strings are masked, truthy non-strings are
returned unchanged by `_maskSensitiveDataInUrl`. -/
def maskUrlStep (maskUrl : String → String) (v : JsVal) : JsVal :=
  if v.truthy then
    match v with
    | .str s => .str (maskUrl s)
    | other => other
  else v

/-- The per-key body of `_processLogData`'s `forEach`: top-level strings
that look like URLs are masked, top-level objects are handed to
`_processNestedObject`. -/
def topFieldVal (maskUrl : String → String) (k : String) (v : JsVal) : JsVal :=
  match v with
  | .str s =>
    if strIncludes s "http" || strIncludes (strLower k) "url" then .str (maskUrl s)
    else .str s
  | .obj fs => .obj (procNestedFields maskUrl fs)
  | .arr es => .arr (procNestedElems maskUrl es)
  | other => other

/-- The `Object.keys(processedData).forEach` loop of `_processLogData`. -/
def processTopFields (maskUrl : String → String) : JsFields → JsFields
  | .nil => .nil
  | .cons k v rest => .cons k (topFieldVal maskUrl k v) (processTopFields maskUrl rest)

/-- `Logger._processLogData(data)` in the fragment: copy, drop `headers`,
mask a truthy `url`, run the top-level masking loop, re-format a present
`body`, and drop a truthy `signal`.  (The `URLSearchParams` body branch is
outside the fragment; a falsy or non-object `data` is returned as is.) -/
def processLogData (maskUrl : String → String) (jsonParse : String → Option JsVal) :
    JsVal → JsVal
  | .obj fs =>
    let fs1 := delField fs "headers"
    let fs2 := mapField fs1 "url" (maskUrlStep maskUrl)
    let fs3 := processTopFields maskUrl fs2
    let fs4 := if hasFieldB fs3 "body" then mapField fs3 "body" (formatRequestBody jsonParse) else fs3
    let fs5 := if fieldTruthy (.obj fs4) "signal" then delField fs4 "signal" else fs4
    .obj fs5
  | v => v

/-- The field-list view of `_processLogData` on an object payload (the
five steps of `processLogData`, factored out). -/
def processedLogFields (maskUrl : String → String) (jsonParse : String → Option JsVal)
    (fs : JsFields) : JsFields :=
  let fs1 := delField fs "headers"
  let fs2 := mapField fs1 "url" (maskUrlStep maskUrl)
  let fs3 := processTopFields maskUrl fs2
  let fs4 := if hasFieldB fs3 "body" then mapField fs3 "body" (formatRequestBody jsonParse) else fs3
  if fieldTruthy (.obj fs4) "signal" then delField fs4 "signal" else fs4

/-- Build a JS array of strings. -/
def stackLinesAux : List String → JsElems
  | [] => .nil
  | s :: rest => .cons (.str s) (stackLinesAux rest)

/-- Split a stack string into trimmed lines, as `_safeStringify` does for
`stack`-named string fields. -/
def stackLines (s : String) : JsVal :=
  .arr (stackLinesAux ((s.splitOn "\n").map String.trim))

mutual

/-- `prepareForStringify(obj, path, depth)` inside `_safeStringify`, in
the fragment: the depth cap replaces anything below depth 10; objects get
the hard-coded redaction list, `stack` splitting and URL masking; arrays
recurse elementwise.  (The `URLSearchParams`, `Error` and `WeakSet`
circularity branches are outside the tree fragment, and the
`path.endsWith('.stack')` branch is unreachable because non-objects have
already been returned.) -/
def prepFS (maskUrl : String → String) (depth : ℕ) (v : JsVal) : JsVal :=
  if 10 < depth then .str DEPTH_LIMIT_MSG
  else
    match v with
    | .obj fs => .obj (prepFSFields maskUrl depth fs)
    | .arr es => .arr (prepFSElems maskUrl depth es)
    | other => other

/-- The per-key body of the `for (const key in obj)` loop of
`prepareForStringify`. -/
def prepFieldVal (maskUrl : String → String) (depth : ℕ) (k : String) (v : JsVal) : JsVal :=
  if SAFE_STRINGIFY_REDACT.contains k then .str REDACTED
  else
    match v with
    | .str s =>
      if k = "stack" then stackLines s
      else if strIncludes s "http" || strIncludes (strLower k) "url" then .str (maskUrl s)
      else prepFS maskUrl (depth + 1) (.str s)
    | w => prepFS maskUrl (depth + 1) w

/-- The `for (const key in obj)` loop of `prepareForStringify`. -/
def prepFSFields (maskUrl : String → String) (depth : ℕ) : JsFields → JsFields
  | .nil => .nil
  | .cons k v rest => .cons k (prepFieldVal maskUrl depth k v) (prepFSFields maskUrl depth rest)

/-- The `obj.map((item, i) => prepareForStringify(item, ..., depth + 1))`
branch for arrays. -/
def prepFSElems (maskUrl : String → String) (depth : ℕ) : JsElems → JsElems
  | .nil => .nil
  | .cons v rest => .cons (prepFS maskUrl (depth + 1) v) (prepFSElems maskUrl depth rest)

end

/-- The tree `Logger.log` hands to `JSON.stringify` for a structured
payload `data` (the non-`Error` path):
`prepareForStringify(this._processLogData(data), '', 0)`. -/
def logPrepared (maskUrl : String → String) (jsonParse : String → Option JsVal)
    (data : JsVal) : JsVal :=
  prepFS maskUrl 0 (processLogData maskUrl jsonParse data)

/-- Membership of a binding in an object's field list. -/
def FieldMem : JsFields → String → JsVal → Prop
  | .nil, _, _ => False
  | .cons k v rest, k0, v0 => (k = k0 ∧ v = v0) ∨ FieldMem rest k0 v0

/-- Membership of a value in an array's elements. -/
def ElemMem : JsElems → JsVal → Prop
  | .nil, _ => False
  | .cons v rest, v0 => v = v0 ∨ ElemMem rest v0

/-- `FieldAt v d k w`: somewhere in the tree `v`, at nesting depth `d`
(0 = a field of `v` itself), an object carries the binding `k ↦ w`. -/
inductive FieldAt : JsVal → ℕ → String → JsVal → Prop where
  | here {fs k w} : FieldMem fs k w → FieldAt (.obj fs) 0 k w
  | inObj {fs k1 v1 d k w} : FieldMem fs k1 v1 → FieldAt v1 d k w →
      FieldAt (.obj fs) (d + 1) k w
  | inArr {es v1 d k w} : ElemMem es v1 → FieldAt v1 d k w →
      FieldAt (.arr es) (d + 1) k w

/-- A value with no object bindings anywhere (scalars). -/
def NoFields (v : JsVal) : Prop := ∀ d k w, ¬ FieldAt v d k w

/-- Every binding of a `SENSITIVE_PARAMS` name anywhere inside `v` is the
placeholder. -/
def Scrub9 (v : JsVal) : Prop :=
  ∀ d k w, FieldAt v d k w → SENSITIVE_PARAMS.contains k → w = .str REDACTED

/-- The scrub list of the claim: `SENSITIVE_PARAMS` plus `Authorization`. -/
def scrubNames : List String := SENSITIVE_PARAMS ++ ["Authorization"]

mutual

/-- Structurally: every `SENSITIVE_PARAMS`-named binding anywhere inside
the value is the placeholder (the invariant `_processNestedObject`
establishes). -/
def ScrubV : JsVal → Prop
  | .obj fs => ScrubF fs
  | .arr es => ScrubE es
  | _ => True

/-- Field-list form of `ScrubV`. -/
def ScrubF : JsFields → Prop
  | .nil => True
  | .cons k v rest =>
    (SENSITIVE_PARAMS.contains k = true → v = .str REDACTED) ∧ ScrubV v ∧ ScrubF rest

/-- Element-list form of `ScrubV`. -/
def ScrubE : JsElems → Prop
  | .nil => True
  | .cons v rest => ScrubV v ∧ ScrubE rest

end

mutual

/-- Structurally: every `scrubNames`-named binding anywhere inside the
value is the `[REDACTED]` or the depth-cap placeholder (the invariant the
full pipeline establishes below the top level). -/
def Out10V : JsVal → Prop
  | .obj fs => Out10F fs
  | .arr es => Out10E es
  | _ => True

/-- Field-list form of `Out10V`. -/
def Out10F : JsFields → Prop
  | .nil => True
  | .cons k v rest =>
    (scrubNames.contains k = true → v = .str REDACTED ∨ v = .str DEPTH_LIMIT_MSG) ∧
      Out10V v ∧ Out10F rest

/-- Element-list form of `Out10V`. -/
def Out10E : JsElems → Prop
  | .nil => True
  | .cons v rest => Out10V v ∧ Out10E rest

end

mutual

/-- Structurally: every binding of a `SAFE_STRINGIFY_REDACT` name anywhere
inside the value is the `[REDACTED]` or the depth-cap placeholder (what
`prepareForStringify` guarantees for arbitrary input, since its own
redaction list applies at every recursion level). -/
def Safe4V : JsVal → Prop
  | .obj fs => Safe4F fs
  | .arr es => Safe4E es
  | _ => True

/-- Field-list form of `Safe4V`. -/
def Safe4F : JsFields → Prop
  | .nil => True
  | .cons k v rest =>
    (SAFE_STRINGIFY_REDACT.contains k = true →
      v = .str REDACTED ∨ v = .str DEPTH_LIMIT_MSG) ∧
      Safe4V v ∧ Safe4F rest

/-- Element-list form of `Safe4V`. -/
def Safe4E : JsElems → Prop
  | .nil => True
  | .cons v rest => Safe4V v ∧ Safe4E rest

end

/-! ### Call orchestrator — `src/index.js`, class `Bitrix24API`

`call(method, params, auth)` runs `validateRequest` (which throws) and
then `#makeBitrixApiCall`, which loads credentials, admits through the
limiter, invokes the transport, and on an `expired_token` envelope runs
`#refreshAuth`, which performs the OAuth sub-call directly through
`#executeRequest` and — after persisting the merged record — re-issues the
original call via `this.call`.

The transport is an oracle mapping the 0-based index of the transport
invocation to the parsed envelope it resolves with (`bitrixFetch` never
rejects); the credential store is the default JSON-file store, modelled as
the `store` field of the `World` (its `readAuth` ignores the hint and
`writeAuth` returns `true`).  The single in-flight call admits through an
otherwise idle limiter, so one `throttle` is an enqueue, a decay tick and
a release of that task.  Re-issuing recursion is metered by explicit fuel;
running out of fuel marks divergence. -/

/-- Mutable state threaded through one `call`: the credential store, the
limiter's portal map, the number of transport invocations so far (the
oracle index), how many times the refresh path was engaged (an observation
counter), the request URLs issued, and the clock. -/
structure World where
  store : Option JsVal
  portals : List (String × PortalState)
  callIdx : ℕ
  refreshCount : ℕ
  urls : List String
  now : ℕ
  deriving DecidableEq, Repr

/-- What a `call` invocation does: resolve with a value, reject with a
thrown error, or fail to terminate within the given fuel. -/
inductive RunRes where
  | value (v : JsVal)
  | thrown (e : JsErr)
  | outOfFuel
  deriving DecidableEq, Repr

/-- Associative update of the portal map. -/
def assocSet : List (String × PortalState) → String → PortalState → List (String × PortalState)
  | [], d, p => [(d, p)]
  | (d0, p0) :: rest, d, p =>
    if d0 = d then (d, p) :: rest else (d0, p0) :: assocSet rest d p

/-- `getPortalState(domain)` on the world's portal map. -/
def getPortal (w : World) (domain : String) : PortalState :=
  match w.portals.lookup domain with
  | some p => p
  | none => freshPortal w.now

/-- `requestLimiter.throttle(domain, method)` for the single in-flight
call: the queue is empty and idle, so the pushed task is processed
immediately — counter decay, then shift-and-execute. -/
def throttleW (w : World) (domain : String) : World :=
  let p := getPortal w domain
  let p' := (limRun p [.enq w.callIdx w.now, .tick w.now, .release w.now]).1
  { w with portals := assocSet w.portals domain p' }

/-- `Bitrix24API.#executeRequest`: one transport invocation, resolved by
the oracle. -/
def executeRequest (oracle : ℕ → JsVal) (w : World) (url : String) : World × JsVal :=
  ({ w with callIdx := w.callIdx + 1, urls := w.urls ++ [url] }, oracle w.callIdx)

/-- `#getAuth(auth)`: read the stored record (the default store ignores
the hint) and validate it; an invalid or missing record is `none`. -/
def getAuthW (w : World) : Option JsVal :=
  match w.store with
  | none => none
  | some a => if validateAuth a then some a else none

/-- String property access with JS string coercion out of scope: a missing
or non-string property reads as `""` (the validated records in the
fragment always carry strings). -/
def strFieldD (v : JsVal) (k : String) : String :=
  match v.getField k with
  | some (.str s) => s
  | _ => ""

/-- Optional string property (for `server_endpoint`; a non-string value
there is outside the fragment and reads as absent). -/
def optStrField (v : JsVal) (k : String) : Option String :=
  match v.getField k with
  | some (.str s) => some s
  | _ => none

/-- Join encoded parameters as `URLSearchParams.toString` does, with the
host percent-encoding elided. -/
def renderQuery (ps : List (String × String)) : String :=
  String.intercalate "&" (ps.map fun p => p.1 ++ "=" ++ p.2)

/-- Helper for `jsObjSet`. -/
def objSetField : JsFields → String → JsVal → JsFields
  | .nil, k, x => .cons k x .nil
  | .cons k0 v0 rest, k, x =>
    if k0 = k then .cons k x rest else .cons k0 v0 (objSetField rest k x)

/-- Property update by JS object spread `{...v, k: x}` (an existing key
keeps its position, a new one is appended; spreading a non-object
contributes no fields in the fragment). -/
def jsObjSet (v : JsVal) (k : String) (x : JsVal) : JsVal :=
  match v with
  | .obj fs => .obj (objSetField fs k x)
  | _ => .obj (.cons k x .nil)

/-- The URL `#prepareApiRequest` builds:
`appSettings.client_endpoint + query.method + '.json'` (the POST body is
`httpBuildQuery({...params, auth: access_token})`, already modelled by
`httpBuildQuery`). -/
def apiUrl (appAuth : JsVal) (method : String) : String :=
  strFieldD appAuth "client_endpoint" ++ method ++ ".json"

/-- The URL `#prepareOAuthRequest` builds: the derived OAuth endpoint plus
the encoded query. -/
def oauthUrl (appAuth : JsVal) (params : JsVal) : String :=
  deriveOAuthEndpoint (optStrField appAuth "server_endpoint") ++ "?" ++
    renderQuery (httpBuildQuery params)

/-- Lift an optional configured string into a JS value (`null` default). -/
def optToJs : Option String → JsVal
  | some s => .str s
  | none => .jsNull

/-- The refresh query parameters `#refreshAuth` builds. -/
def refreshQueryParams (cfg : Cfg) (appAuth : JsVal) : JsVal :=
  .obj (.cons "client_id" (optToJs cfg.client_id)
    (.cons "grant_type" (.str "refresh_token")
      (.cons "client_secret" (optToJs cfg.client_secret)
        (.cons "refresh_token" ((appAuth.getField "refresh_token").getD .undef) .nil))))

/-- `Bitrix24API.#refreshAuth(query, auth)`: bump the observation counter,
issue the OAuth sub-call directly through `#executeRequest` (no limiter
admission), surface an error envelope, otherwise merge the pre-existing
`domain` into the response, persist it (`#setAuth` validates and the
default `writeAuth` returns `true`), and on success re-issue the original
call through `reissue` (the `this.call` re-entry); a failed persist
resolves with `null`. -/
def refreshAuthFn (oracle : ℕ → JsVal) (cfg : Cfg)
    (reissue : String → JsVal → Option JsVal → World → World × RunRes)
    (method : String) (params : JsVal) (appAuth : JsVal) (w : World) : World × RunRes :=
  let w0 := { w with refreshCount := w.refreshCount + 1 }
  let url := oauthUrl appAuth (refreshQueryParams cfg appAuth)
  let step := executeRequest oracle w0 url
  let w1 := step.1
  let updatedAuth := step.2
  if fieldTruthy updatedAuth "error" then (w1, .value updatedAuth)
  else
    let newAuth := jsObjSet updatedAuth "domain" ((appAuth.getField "domain").getD .undef)
    if validateAuth newAuth then
      let w2 := { w1 with store := some newAuth }
      reissue method params (some newAuth) w2
    else (w1, .value .jsNull)

/-- `Bitrix24API.#makeBitrixApiCall(query, auth)`: load and validate
credentials (an invalid record resolves with the `handleError` envelope),
admit through the limiter, execute the prepared request, and engage the
refresh path on an `expired_token` envelope when the query is not itself
the OAuth sub-call (`query.this_auth`). -/
def makeBitrixApiCall (oracle : ℕ → JsVal) (cfg : Cfg)
    (reissue : String → JsVal → Option JsVal → World → World × RunRes)
    (method : String) (params : JsVal) (thisAuth : Bool) (w : World) : World × RunRes :=
  match getAuthW w with
  | none => (w, .value (handleError ⟨"AuthError", "No valid auth found", none, none⟩))
  | some appAuth =>
    let domain := strFieldD appAuth "domain"
    let w1 := throttleW w domain
    let url :=
      if thisAuth then oauthUrl appAuth params
      else apiUrl appAuth method
    let step := executeRequest oracle w1 url
    let w2 := step.1
    let result := step.2
    if result.getField "error" = some (.str "expired_token") && !thisAuth then
      refreshAuthFn oracle cfg reissue method params appAuth w2
    else (w2, .value result)

/-- `Bitrix24API.call(method, params, auth)`: `validateRequest` runs
outside any `try`, so its exceptions propagate (`thrown`); otherwise the
query `{method, params}` (with no `this_auth` mark) goes to
`#makeBitrixApiCall`.  Each re-entry through the refresh path consumes one
unit of fuel. -/
def callFn (oracle : ℕ → JsVal) (cfg : Cfg) :
    ℕ → String → JsVal → Option JsVal → World → World × RunRes
  | 0, _, _, _, w => (w, .outOfFuel)
  | fuel + 1, method, params, hint, w =>
    match validateRequest method hint cfg with
    | some e => (w, .thrown e)
    | none => makeBitrixApiCall oracle cfg (callFn oracle cfg fuel) method params false w

/-! ### Concrete scenarios used by the theorems -/

/-- The `expired_token` envelope a portal answers with. -/
def expiredEnv : JsVal := .obj (.cons "error" (.str "expired_token") .nil)

/-- A successful refresh response (the credential delta, without
`domain`). -/
def refreshedEnv : JsVal :=
  .obj (.cons "access_token" (.str "T2")
    (.cons "refresh_token" (.str "R2")
      (.cons "client_endpoint" (.str "https://t.bx/rest/") .nil)))

/-- A server that answers every method call with `expired_token` and every
OAuth sub-call (the odd transport invocations) with fresh tokens. -/
def expiredOracle : ℕ → JsVal :=
  fun n => if n % 2 = 0 then expiredEnv else refreshedEnv

/-- The `QUERY_LIMIT_EXCEEDED` envelope. -/
def limitEnv : JsVal := .obj (.cons "error" (.str "QUERY_LIMIT_EXCEEDED") .nil)

/-- A server that answers every request with `QUERY_LIMIT_EXCEEDED`. -/
def limitOracle : ℕ → JsVal := fun _ => limitEnv

/-- A stored valid credential record for tenant `t.bx`. -/
def authRec0 : JsVal :=
  .obj (.cons "access_token" (.str "T1")
    (.cons "refresh_token" (.str "R1")
      (.cons "domain" (.str "t.bx")
        (.cons "client_endpoint" (.str "https://t.bx/rest/") .nil))))

/-- A fresh world holding `authRec0`. -/
def world0 : World :=
  { store := some authRec0, portals := [], callIdx := 0, refreshCount := 0,
    urls := [], now := 0 }

/-- A configured client. -/
def cfg0 : Cfg := { client_id := some "C", client_secret := some "S" }

/-- Transport outcomes: three `500`s, then a `200` with a parsed result. -/
def oracle500x3 : ℕ → FetchOutcome :=
  fun n =>
    if n < 3 then .resp 500 none .jsNull
    else .resp 200 none (.obj (.cons "result" (.num 1) .nil))

/-- The spec's retry scenario: `attempts = 3`, `basePause = 10`, three
`500`s then a `200`, with jitter draws `j`. -/
def retryCfg (j : ℕ → ℚ) : FetchCfg :=
  { tryes := 3, pause := 10, oracle := oracle500x3, jitter := j }

/-- A transport configured with a zero attempt budget against a `500`ing
server. -/
def zeroTryesCfg : FetchCfg :=
  { tryes := 0, pause := 10, oracle := fun _ => .resp 500 none .jsNull,
    jitter := fun _ => 0 }

/-- A fetch-level error that is not classified as retryable. -/
def fatalErr : JsErr :=
  { name := "Error", message := "boom", code := some "EACCES", stack := none }

/-- A transport whose first attempt throws `fatalErr`. -/
def fatalCfg : FetchCfg :=
  { tryes := 3, pause := 10, oracle := fun _ => .throwErr fatalErr,
    jitter := fun _ => 0 }

/-- The identity URL-masking oracle (any oracle works for the statements
that use it concretely). -/
def idMask : String → String := fun s => s

/-- A `JSON.parse` oracle that always fails. -/
def noParse : String → Option JsVal := fun _ => none

/-! ## Theorems -/

/-- C7: the query encoder emits PHP-style bracket notation exactly as
specified: `{a: {b: 1, c: 2}}` produces the parameters `a[b]=1, a[c]=2`,
`{xs: [10, 20]}` produces `xs[0]=10, xs[1]=20`, `true` and `false` encode
to `"1"` and `"0"`, numeric zero to `"0"`, and nil (`null`/`undefined`)
values to the empty string. -/
theorem c7_query_encoder_bracket_notation :
    httpBuildQuery (.obj (.cons "a"
        (.obj (.cons "b" (.num 1) (.cons "c" (.num 2) .nil))) .nil)) =
      [("a[b]", "1"), ("a[c]", "2")] ∧
    httpBuildQuery (.obj (.cons "xs"
        (.arr (.cons (.num 10) (.cons (.num 20) .nil))) .nil)) =
      [("xs[0]", "10"), ("xs[1]", "20")] ∧
    httpBuildQuery (.obj (.cons "t" (.boolVal true) (.cons "f" (.boolVal false)
        (.cons "z" (.num 0) (.cons "n" .jsNull (.cons "u" .undef .nil)))))) =
      [("t", "1"), ("f", "0"), ("z", "0"), ("n", ""), ("u", "")] := by
  refine ⟨?_, ?_, ?_⟩ <;> rfl

/-- `updateCounter` never touches the queue. -/
theorem updateCounter_queue (now : ℕ) (p : PortalState) :
    (updateCounter now p).queue = p.queue := by
  unfold updateCounter
  dsimp only
  split <;> split <;> rfl

/-- `handleResponse` never touches the queue. -/
theorem handleResponse_queue (now : ℕ) (r : JsVal) (p : PortalState) :
    (handleResponse now r p).queue = p.queue := by
  unfold handleResponse
  split
  · rfl
  · split <;> rfl

/-- Conservation along any run: released tasks followed by the remaining
queue are exactly the initial queue followed by the enqueued tasks. -/
theorem limRun_conservation (evs : List LimEvent) :
    ∀ p : PortalState,
      (limRun p evs).2 ++ (limRun p evs).1.queue = p.queue ++ enqueuedOf evs := by
  induction evs with
  | nil => intro p; simp [limRun, enqueuedOf]
  | cons e es ih =>
    intro p
    cases e with
    | enq t now =>
      simp only [limRun, limStep, enqueuedOf]
      rw [ih]
      simp
    | tick now =>
      simp only [limRun, limStep, enqueuedOf]
      rw [ih, updateCounter_queue]
    | release now =>
      rcases hq : p.queue with _ | ⟨t, rest⟩
      · simp only [limRun, limStep, hq, enqueuedOf]
        rw [ih, hq]
      · simp only [limRun, limStep, hq, enqueuedOf]
        rw [List.cons_append, ih]
        simp
    | observe r now =>
      simp only [limRun, limStep, enqueuedOf]
      rw [ih, handleResponse_queue]

/-- C4: for one tenant, the sequence of admissions the limiter releases is
a prefix of the enqueued sequence in the same order — over any
interleaving of enqueues, counter ticks, releases and observations
starting from an empty queue. -/
theorem c4_released_prefix_of_enqueued (p : PortalState) (evs : List LimEvent)
    (h : p.queue = []) :
    (limRun p evs).2 <+: enqueuedOf evs :=
  ⟨(limRun p evs).1.queue, by
    have hc := limRun_conservation evs p
    rwa [h, List.nil_append] at hc⟩

/-- Witness for C4: a concrete interleaving of two enqueues, a decay tick
and two releases, starting from a fresh portal. -/
theorem c4_released_prefix_of_enqueued_witness :
    (freshPortal 0).queue = [] ∧
    (limRun (freshPortal 0)
        [.enq 1 0, .enq 2 5, .tick 5, .release 160, .release 320]).2 <+:
      enqueuedOf [.enq 1 0, .enq 2 5, .tick 5, .release 160, .release 320] :=
  ⟨rfl, c4_released_prefix_of_enqueued _ _ rfl⟩

/-- Attempt bound for the transport loop: starting with
`remainingTryes = rem`, at most `max rem 1` entries happen (the decrement
is on entry, so even a non-positive budget performs one attempt). -/
theorem fetchGo_attempts_le (cfg : FetchCfg) :
    ∀ (n : ℕ) (idx : ℕ) (rem : ℤ), rem.toNat = n →
      (fetchGo cfg idx rem).attempts ≤ max rem.toNat 1 := by
  intro n
  induction n using Nat.strong_induction_on with
  | _ n ih =>
    intro idx rem hn
    rw [fetchGo.eq_def]
    cases ho : cfg.oracle idx with
    | throwErr e =>
      by_cases hr : isRetryable e
      · by_cases hg : (0 : ℤ) < rem - 1
        · have h1 : (rem - 1).toNat < n := by omega
          have h2 := ih _ h1 (idx + 1) (rem - 1) rfl
          simp [hr, hg]
          all_goals omega
        · simp [hr, hg]
          all_goals omega
      · simp [hr]
        all_goals omega
    | resp status loc body =>
      by_cases h2 : status / 100 = 2
      · simp [h2]
        all_goals omega
      · by_cases h3 : status / 100 = 3
        · simp only [h2, h3]
          cases loc with
          | none =>
            simp
            all_goals omega
          | some l =>
            by_cases hg : rem - 1 ≤ 0
            · simp [hg]
              all_goals omega
            · have h1 : (rem - 1).toNat < n := by omega
              have hrec := ih _ h1 (idx + 1) (rem - 1) rfl
              simp [hg]
              all_goals omega
        · by_cases h4 : status / 100 = 4
          · simp only [h2, h3, h4]
            simp
            split
            all_goals simp
            all_goals omega
          · by_cases h5 : status / 100 = 5
            · simp only [h2, h3, h4, h5]
              by_cases hg : (0 : ℤ) < rem - 1
              · have h1 : (rem - 1).toNat < n := by omega
                have hrec := ih _ h1 (idx + 1) (rem - 1) rfl
                simp [hg]
                all_goals omega
              · simp [hg]
                all_goals omega
            · simp [h2, h3, h4, h5]
              all_goals omega

/-- C5 amended: for every transport configuration, the number of HTTP
attempts is at most `max(tryes, 1)` — redirects, 5xx retries and
retryable network errors all draw from the single `remainingTryes`
counter, which is decremented on entry, and once it is exhausted the
transport returns a tagged `redirect_error`, `server_error` or
`network_error` instead of re-entering `fetch`; but the first attempt is
made unconditionally, so a budget of `tryes ≤ 0` still performs one
attempt. -/
theorem c5_attempts_bounded (cfg : FetchCfg) :
    (bitrixFetch cfg).attempts ≤ max cfg.tryes.toNat 1 :=
  fetchGo_attempts_le cfg _ 0 cfg.tryes rfl

/-- C5 counterexample: with `tryes = 0` the transport still performs one
HTTP attempt, so "at most `tryes` attempts" fails at `tryes = 0`. -/
theorem c5_zero_budget_counterexample :
    zeroTryesCfg.tryes = 0 ∧ (bitrixFetch zeroTryesCfg).attempts = 1 := by
  refine ⟨rfl, ?_⟩
  rw [bitrixFetch, fetchGo.eq_def]
  norm_num [zeroTryesCfg]

/-- C10: a fetch-level exception that is not classified as retryable (its
system code is none of the retryable codes and its message matches
neither `timeout` nor `connection reset` case-insensitively) is returned
as the original host-language error object — not a tagged
`network_error` envelope — after exactly one attempt and with no backoff
sleeps, and nothing is thrown. -/
theorem c10_fatal_error_returned_raw (cfg : FetchCfg) (e : JsErr)
    (h0 : cfg.oracle 0 = .throwErr e)
    (hcode : e.code ∉
      (["ECONNRESET", "ETIMEDOUT", "ENETUNREACH", "EPIPE", "ECONNABORTED",
        "ENOTFOUND", "ECONNREFUSED"] : List String).map Option.some)
    (hmsg1 : strIncludesInsens e.message "timeout" = false)
    (hmsg2 : strIncludesInsens e.message "connection reset" = false) :
    bitrixFetch cfg = { result := .rawErr e, attempts := 1, sleeps := [] } := by
  have hr : isRetryable e = false := by
    simp only [List.map, List.mem_cons, List.not_mem_nil, or_false, not_or] at hcode
    obtain ⟨n1, n2, n3, n4, n5, n6, n7⟩ := hcode
    simp [isRetryable, n1, n2, n3, n4, n5, n6, n7, hmsg1, hmsg2]
  rw [bitrixFetch, fetchGo.eq_def]
  simp [h0, hr]

/-- Witness for C10 at the concrete fatal error `fatalErr`
(code `EACCES`, message `boom`). -/
theorem c10_fatal_error_returned_raw_witness :
    fatalCfg.oracle 0 = .throwErr fatalErr ∧
    bitrixFetch fatalCfg = { result := .rawErr fatalErr, attempts := 1, sleeps := [] } :=
  ⟨rfl, c10_fatal_error_returned_raw fatalCfg fatalErr rfl (by decide) (by decide) (by decide)⟩

/-- A URL matching the OAuth `rest` shape ends in `t` (the regex is
anchored on `/rest`), hence never in a slash. -/
theorem matchOAuthRest_getLast (s : String) (h : matchOAuthRest s = true) :
    s.toList.getLast? = some 't' := by
  unfold matchOAuthRest at h
  simp only [Bool.and_eq_true, Bool.or_eq_true, decide_eq_true_eq] at h
  obtain ⟨-, htail⟩ := h
  have hsuffix : ((s.toList.drop 20).dropWhile Char.isDigit) <:+ s.toList :=
    (List.dropWhile_suffix _).trans (List.drop_suffix _ _)
  obtain ⟨u, hu⟩ := hsuffix
  rcases htail with htail | htail
  all_goals
    rw [← hu, List.getLast?_append_of_ne_nil _ (by rw [htail]; decide), htail]
    decide

/-- C9 amended: the OAuth endpoint is derived from `server_endpoint` by
the exact shape `https://oauth.bitrix<digits?>.{tech,info}/rest` with at
most one trailing slash tolerated (the code strips a single trailing
slash before applying the exact regex); a matching URL has its final
`/rest` replaced by `/oauth/token/`, and every other value falls back to
the library-wide default endpoint. -/
theorem c9_oauth_endpoint_amended (s : String) :
    (specOAuthShape s = true →
      deriveOAuthEndpoint (some s) = specReplaceRest (stripTrailingSlash s)) ∧
    (specOAuthShape s = false → deriveOAuthEndpoint (some s) = OAUTH_TOKEN_ENDPOINT) := by
  by_cases hs : s = ""
  · subst hs
    refine ⟨fun h => absurd h (by decide), fun _ => rfl⟩
  · have hspec : specOAuthShape s = matchOAuthRest (stripTrailingSlash s) := by
      unfold specOAuthShape stripTrailingSlash
      by_cases hlast : s.toList.getLast? = some '/'
      · have hnot : matchOAuthRest s = false := by
          cases hm : matchOAuthRest s
          · rfl
          · have hlt := matchOAuthRest_getLast s hm
            rw [hlast] at hlt
            simp at hlt
        unfold String.toList at hlast
        simp [hlast, hnot]
      · unfold String.toList at hlast
        simp [hlast]
    constructor
    · intro h
      rw [hspec] at h
      simp [deriveOAuthEndpoint, convertToOAuthEndpoint, hs, h, isValidOAuthEndpoint,
        specReplaceRest]
    · intro h
      rw [hspec] at h
      simp [deriveOAuthEndpoint, convertToOAuthEndpoint, hs, h, isValidOAuthEndpoint]

/-- Witness for C9 amended: the canonical `server_endpoint`
`https://oauth.bitrix.info/rest` matches the shape and converts, and a
non-matching value falls back to the default. -/
theorem c9_oauth_endpoint_amended_witness :
    (specOAuthShape "https://oauth.bitrix.info/rest" = true ∧
      deriveOAuthEndpoint (some "https://oauth.bitrix.info/rest") =
        specReplaceRest (stripTrailingSlash "https://oauth.bitrix.info/rest")) ∧
    (specOAuthShape "https://example.com/rest" = false ∧
      deriveOAuthEndpoint (some "https://example.com/rest") = OAUTH_TOKEN_ENDPOINT) :=
  ⟨⟨by decide, (c9_oauth_endpoint_amended _).1 (by decide)⟩,
   ⟨by decide, (c9_oauth_endpoint_amended _).2 (by decide)⟩⟩

/-- C9 counterexample: `https://oauth.bitrix1.tech/rest/` does not match
the exact shape (it carries a trailing slash), yet the code derives the
converted endpoint from it instead of the library-wide default the claim
prescribes. -/
theorem c9_trailing_slash_counterexample :
    matchOAuthRest "https://oauth.bitrix1.tech/rest/" = false ∧
    deriveOAuthEndpoint (some "https://oauth.bitrix1.tech/rest/") =
      "https://oauth.bitrix1.tech/oauth/token/" ∧
    ("https://oauth.bitrix1.tech/oauth/token/" : String) ≠ OAUTH_TOKEN_ENDPOINT := by
  refine ⟨by decide, by decide, by decide⟩

/-- C2 counterexample: with a configured client, `call('', {}, {domain})`
rejects with the `method parameter is required` error thrown by
`validateRequest` (which runs outside any `try`), instead of resolving
with a `module_error` envelope. -/
theorem c2_call_throws_counterexample :
    (callFn limitOracle cfg0 5 "" (.obj .nil)
        (some (.obj (.cons "domain" (.str "t.bx") .nil))) world0).2 =
      .thrown ⟨"Error", "method parameter is required", none, none⟩ := by
  rfl

/-- C2 amended: `call` converts no exception into an envelope — every
error `validateRequest` throws (empty method, missing or non-object auth,
unconfigured client id or secret) propagates to the caller as a rejected
promise; the only error the orchestrator itself converts is the
missing-or-invalid stored credential case, which resolves with the
`module_error` envelope built by `handleError`. -/
theorem c2_call_error_conversion_amended :
    (∀ (oracle : ℕ → JsVal) (cfg : Cfg) (fuel : ℕ) (method : String) (params : JsVal)
        (hint : Option JsVal) (w : World) (e : JsErr),
      validateRequest method hint cfg = some e →
      callFn oracle cfg (fuel + 1) method params hint w = (w, .thrown e)) ∧
    (∀ (oracle : ℕ → JsVal) (cfg : Cfg) (fuel : ℕ) (method : String) (params : JsVal)
        (hint : Option JsVal) (w : World),
      validateRequest method hint cfg = none → getAuthW w = none →
      callFn oracle cfg (fuel + 1) method params hint w =
        (w, .value (handleError ⟨"AuthError", "No valid auth found", none, none⟩))) := by
  constructor
  · intro oracle cfg fuel method params hint w e hv
    simp [callFn, hv]
  · intro oracle cfg fuel method params hint w hv ha
    simp [callFn, hv, makeBitrixApiCall, ha]

/-- Witness for C2 amended: the empty method name throws, and a world with
no stored record resolves with the `module_error` envelope. -/
theorem c2_call_error_conversion_amended_witness :
    (validateRequest "" (some (.obj .nil)) cfg0 =
        some ⟨"Error", "method parameter is required", none, none⟩ ∧
      callFn limitOracle cfg0 1 "" (.obj .nil) (some (.obj .nil)) world0 =
        (world0, .thrown ⟨"Error", "method parameter is required", none, none⟩)) ∧
    (validateRequest "user.current" (some (.obj .nil)) cfg0 = none ∧
      getAuthW { world0 with store := none } = none ∧
      callFn limitOracle cfg0 1 "user.current" (.obj .nil) (some (.obj .nil))
          { world0 with store := none } =
        ({ world0 with store := none },
          .value (handleError ⟨"AuthError", "No valid auth found", none, none⟩))) :=
  ⟨⟨by decide, c2_call_error_conversion_amended.1 _ _ _ _ _ _ _ _ (by decide)⟩,
   ⟨by decide, by decide,
    c2_call_error_conversion_amended.2 _ _ _ _ _ _ _ (by decide) (by decide)⟩⟩

/-- C3: the orchestrator never invokes the limiter's `handleResponse`
(observe).  A call whose transport response is the
`QUERY_LIMIT_EXCEEDED` envelope resolves with that envelope while the
tenant's portal stays unblocked with its counter at the single admission
unit — far below `0.9 * MAX_BUCKET` — whereas `handleResponse` itself,
had it been invoked on that response, would have blocked the portal for
`MAX_BLOCK_TIME` and prefilled the bucket to `0.9 * MAX_BUCKET`. -/
theorem c3_observe_never_invoked :
    (callFn limitOracle cfg0 5 "user.current" (.obj .nil)
        (some authRec0) world0).2 = .value limitEnv ∧
    (getPortal (callFn limitOracle cfg0 5 "user.current" (.obj .nil)
        (some authRec0) world0).1 "t.bx").isBlocked = false ∧
    (getPortal (callFn limitOracle cfg0 5 "user.current" (.obj .nil)
        (some authRec0) world0).1 "t.bx").counter = 1 ∧
    ¬ (MAX_BUCKET * (9 / 10) ≤ (1 : ℚ)) ∧
    (handleResponse 0 limitEnv (freshPortal 0)).isBlocked = true ∧
    (handleResponse 0 limitEnv (freshPortal 0)).counter = MAX_BUCKET * (9 / 10) ∧
    (handleResponse 0 limitEnv (freshPortal 0)).blockUntil = 0 + MAX_BLOCK_TIME := by
  have hrun : callFn limitOracle cfg0 5 "user.current" (.obj .nil) (some authRec0) world0 =
      ({ world0 with
          portals := [("t.bx",
            { counter := 1, lastUpdate := 0, isBlocked := false, blockUntil := 0,
              lastRequestTime := 0, queue := [], isProcessingQueue := false,
              totalRequests := 1 })],
          callIdx := 1,
          urls := [apiUrl authRec0 "user.current"] }, .value limitEnv) := by
    have hthr : throttleW world0 "t.bx" =
        { world0 with portals := [("t.bx",
          { counter := 1, lastUpdate := 0, isBlocked := false, blockUntil := 0,
            lastRequestTime := 0, queue := [], isProcessingQueue := false,
            totalRequests := 1 })] } := by
      simp [throttleW, world0, getPortal, freshPortal, limRun, limStep, updateCounter,
        assocSet]
    rw [show (5 : ℕ) = 4 + 1 from rfl]
    rw [callFn]
    simp only [show validateRequest "user.current" (some authRec0) cfg0 = none from by decide,
      makeBitrixApiCall,
      show getAuthW world0 = some authRec0 from by decide,
      show strFieldD authRec0 "domain" = "t.bx" from by decide,
      hthr]
    simp [executeRequest, limitOracle, world0, limitEnv, JsVal.getField, JsFields.find?]
  rw [hrun]
  refine ⟨rfl, ?_, ?_, ?_, ?_, rfl, rfl⟩
  · simp [getPortal, world0]
  · simp [getPortal, world0]
  · norm_num [MAX_BUCKET]
  · simp [handleResponse, limitEnv, isLimitError, JsVal.truthy, JsVal.getField,
      JsFields.find?]

/-- The fields of a validated record: in particular its `domain` is a
present, truthy value. -/
theorem validateAuth_domain (r : JsVal) (h : validateAuth r = true) :
    ((r.getField "domain").getD .undef).truthy = true := by
  unfold validateAuth at h
  simp only [Bool.and_eq_true] at h
  obtain ⟨⟨⟨-, hd⟩, -⟩, -⟩ := h
  unfold fieldTruthy at hd
  cases hg : r.getField "domain" with
  | none => rw [hg] at hd; exact absurd hd (by simp)
  | some d => rw [hg] at hd; simpa using hd

/-- Merging a truthy domain into the fixed refresh response yields a valid
record, so `#setAuth` accepts it and the loop re-enters. -/
theorem validateAuth_merged (dv : JsVal) (h : dv.truthy = true) :
    validateAuth (jsObjSet refreshedEnv "domain" dv) = true := by
  simp [validateAuth, fieldTruthy, jsObjSet, refreshedEnv, objSetField,
    JsVal.getField, JsFields.find?, h]
  decide

/-- `throttleW` only touches the portal map. -/
theorem throttleW_callIdx (w : World) (d : String) : (throttleW w d).callIdx = w.callIdx := rfl

/-- `throttleW` only touches the portal map. -/
theorem throttleW_store (w : World) (d : String) : (throttleW w d).store = w.store := rfl

/-- `throttleW` only touches the portal map. -/
theorem throttleW_refreshCount (w : World) (d : String) :
    (throttleW w d).refreshCount = w.refreshCount := rfl

/-- `executeRequest` resolves with the oracle at the current invocation
index. -/
theorem executeRequest_snd (o : ℕ → JsVal) (w : World) (u : String) :
    (executeRequest o w u).2 = o w.callIdx := rfl

/-- `executeRequest` advances the invocation index. -/
theorem executeRequest_callIdx (o : ℕ → JsVal) (w : World) (u : String) :
    (executeRequest o w u).1.callIdx = w.callIdx + 1 := rfl

/-- `executeRequest` leaves the store alone. -/
theorem executeRequest_store (o : ℕ → JsVal) (w : World) (u : String) :
    (executeRequest o w u).1.store = w.store := rfl

/-- `executeRequest` leaves the refresh counter alone. -/
theorem executeRequest_refreshCount (o : ℕ → JsVal) (w : World) (u : String) :
    (executeRequest o w u).1.refreshCount = w.refreshCount := rfl

/-- Against a server that always answers `expired_token` (with refreshes
succeeding), the orchestrator re-enters the refresh path on every
re-issued call: it engages the refresh once per unit of fuel and never
returns, whatever fuel it is given. -/
theorem refresh_loop_diverges :
    ∀ (fuel : ℕ) (r : JsVal) (hintFs : JsFields) (w : World),
      w.store = some r → validateAuth r = true → w.callIdx % 2 = 0 →
      (callFn expiredOracle cfg0 fuel "user.current" (.obj .nil)
          (some (.obj hintFs)) w).2 = .outOfFuel ∧
      (callFn expiredOracle cfg0 fuel "user.current" (.obj .nil)
          (some (.obj hintFs)) w).1.refreshCount = w.refreshCount + fuel := by
  intro fuel
  induction fuel with
  | zero => intro r hintFs w _ _ _; exact ⟨rfl, rfl⟩
  | succ fuel ih =>
    intro r hintFs w hstore hva hidx
    have hvr : validateRequest "user.current" (some (.obj hintFs)) cfg0 = none := by
      simp [validateRequest, cfg0, JsVal.truthy, JsVal.typeofObject, optTruthy]
    have heven : expiredOracle w.callIdx = expiredEnv := by
      simp [expiredOracle, hidx]
    have hodd : expiredOracle (w.callIdx + 1) = refreshedEnv := by
      have h1 : (w.callIdx + 1) % 2 = 1 := by omega
      simp [expiredOracle, h1]
    have hdv := validateAuth_domain r hva
    have hmerge := validateAuth_merged _ hdv
    simp only [callFn, hvr]
    simp only [makeBitrixApiCall, getAuthW, hstore, hva, if_true]
    simp only [executeRequest_snd, throttleW_callIdx, heven]
    rw [show (expiredEnv.getField "error" = some (.str "expired_token") && !false) = true
      from by decide]
    simp only [if_true, refreshAuthFn]
    simp only [executeRequest_snd, executeRequest_callIdx, throttleW_callIdx, hodd]
    rw [show fieldTruthy refreshedEnv "error" = false from by decide]
    simp only [Bool.false_eq_true, if_false, hmerge, if_true]
    refine ⟨(ih _ _ _ rfl hmerge ?_).1, ?_⟩
    · simp only [executeRequest_callIdx, throttleW_callIdx]
      omega
    · rw [show w.refreshCount + (fuel + 1) = (w.refreshCount + 1) + fuel from by omega]
      exact (ih _ _ _ rfl hmerge
        (by simp only [executeRequest_callIdx, throttleW_callIdx]; omega)).2

/-- C1: the refresh path carries no depth bound.  With a stored valid
record and a server that answers `expired_token` to every method call and
fresh tokens to every refresh, a single originating call engages the
refresh path once per unit of fuel (five times with fuel 5, against the
claimed at-most-once), and the call never returns for any fuel. -/
theorem c1_refresh_not_bounded :
    (callFn expiredOracle cfg0 5 "user.current" (.obj .nil)
        (some authRec0) world0).1.refreshCount = 5 ∧
    (∀ fuel, (callFn expiredOracle cfg0 fuel "user.current" (.obj .nil)
        (some authRec0) world0).2 = .outOfFuel) := by
  constructor
  · exact (refresh_loop_diverges 5 authRec0 _ world0 rfl (by decide) (by decide)).2
  · intro fuel
    exact (refresh_loop_diverges fuel authRec0 _ world0 rfl (by decide) (by decide)).1

/-- `1 << 1` is `2`. -/
theorem jsShl1_one : jsShl1 1 = 2 := by decide

/-- `1 << 2` is `4`. -/
theorem jsShl1_two : jsShl1 2 = 4 := by decide

/-- The Int32 wrap of the source's bit shift: `1 << 31` is negative. -/
theorem jsShl1_31 : jsShl1 31 = -(2 ^ 31) := by decide

/-- The Int32 wrap of the source's bit shift: `1 << 32` is `1` again. -/
theorem jsShl1_32 : jsShl1 32 = 1 := by decide

/-- The wrapped shift is never zero. -/
theorem jsShl1_ne_zero (n : ℕ) : jsShl1 n ≠ 0 := by
  unfold jsShl1
  split
  · decide
  · positivity

/-- Evaluation of the spec's retry scenario (`attempts = 3`,
`basePause = 10`, three `500`s then a `200`) for any jitter draws: three
attempts, two sleeps, and a `server_error` — the budget is exhausted
before the `200` is reached. -/
theorem retry_run_eval (j : ℕ → ℚ) :
    bitrixFetch (retryCfg j) =
      { result := .apiErr "server_error" (some 500), attempts := 3,
        sleeps := [(1, ⌊(20 : ℚ) + j 1 * 6⌋), (2, ⌊(40 : ℚ) + j 2 * 12⌋)] } := by
  rw [bitrixFetch]
  simp [fetchGo.eq_def, retryCfg, oracle500x3, waitBackoff, jsShl1_one, jsShl1_two, consSleep]
  constructor
  · rw [show (10 : ℚ) * 2 + j 1 * (3 / 10) * (10 * 2) = ((20 : ℤ) : ℚ) + j 1 * 6 from by
      push_cast; ring]
    rw [Int.floor_int_add]
  · rw [show (10 : ℚ) * 4 + j 2 * (3 / 10) * (10 * 4) = ((40 : ℤ) : ℚ) + j 2 * 12 from by
      push_cast; ring]
    rw [Int.floor_int_add]

/-- Every sleep the transport performs precedes a 0-based attempt index
`n ≥ 1` and equals `waitExponentialBackoff(pause, n)` with the jitter
draw for `n`. -/
theorem fetchGo_sleeps_spec (cfg : FetchCfg) :
    ∀ (n : ℕ) (idx : ℕ) (rem : ℤ), rem.toNat = n → cfg.tryes - rem = idx →
      ∀ pr ∈ (fetchGo cfg idx rem).sleeps,
        1 ≤ pr.1 ∧ waitBackoff cfg.pause pr.1 (cfg.jitter pr.1) = some pr.2 := by
  intro n
  induction n using Nat.strong_induction_on with
  | _ n ih =>
    intro idx rem hn hinv pr
    rw [fetchGo.eq_def]
    cases ho : cfg.oracle idx with
    | throwErr e =>
      by_cases hr : isRetryable e
      · by_cases hg : (0 : ℤ) < rem - 1
        · have h1 : (rem - 1).toNat < n := by omega
          have hinv1 : cfg.tryes - (rem - 1) = idx + 1 := by omega
          have ha : (cfg.tryes - (rem - 1)).toNat = idx + 1 := by omega
          have hrec := ih _ h1 (idx + 1) (rem - 1) rfl hinv1
          simp only [hr, hg, if_true, ha]
          intro hmem
          cases hwb : waitBackoff cfg.pause (idx + 1) (cfg.jitter (idx + 1)) with
          | none =>
            rw [hwb] at hmem
            exact hrec pr hmem
          | some d =>
            rw [hwb] at hmem
            simp only [consSleep, List.mem_cons] at hmem
            rcases hmem with heq | hmem
            · rw [heq]
              exact ⟨by omega, hwb⟩
            · exact hrec pr hmem
        · simp [hr, hg]
      · simp [hr]
    | resp status loc body =>
      by_cases h2 : status / 100 = 2
      · simp [h2]
      · by_cases h3 : status / 100 = 3
        · simp only [h2, h3, if_false, if_true]
          cases loc with
          | none => simp
          | some l =>
            by_cases hg : rem - 1 ≤ 0
            · simp [hg]
            · have h1 : (rem - 1).toNat < n := by omega
              have hinv1 : cfg.tryes - (rem - 1) = idx + 1 := by omega
              have hrec := ih _ h1 (idx + 1) (rem - 1) rfl hinv1
              simp only [hg, if_false]
              intro hmem
              exact hrec pr hmem
        · by_cases h4 : status / 100 = 4
          · simp only [h2, h3, h4]
            norm_num
            intro hmem
            split at hmem <;> simp at hmem
          · by_cases h5 : status / 100 = 5
            · simp only [h2, h3, h4, h5, if_false, if_true]
              by_cases hg : (0 : ℤ) < rem - 1
              · have h1 : (rem - 1).toNat < n := by omega
                have hinv1 : cfg.tryes - (rem - 1) = idx + 1 := by omega
                have ha : (cfg.tryes - (rem - 1)).toNat = idx + 1 := by omega
                have hrec := ih _ h1 (idx + 1) (rem - 1) rfl hinv1
                simp only [hg, if_true, ha]
                intro hmem
                cases hwb : waitBackoff cfg.pause (idx + 1) (cfg.jitter (idx + 1)) with
                | none =>
                  rw [hwb] at hmem
                  exact hrec pr hmem
                | some d =>
                  rw [hwb] at hmem
                  simp only [consSleep] at hmem
                  cases hmem with
                  | head => exact ⟨by omega, hwb⟩
                  | tail b hmem => exact hrec _ hmem
              · simp [hg]
            · simp [h2, h3, h4, h5]

/-- C6 (amended): in the spec's scenario (`attempts = 3`,
`basePause = 10`, three `500`s then a `200`) the transport sleeps only
twice — before 0-based attempts 1 and 2, for `⌊20 + j·6⌋` and
`⌊40 + j·12⌋` ms — and then returns a tagged `server_error`: the three
`500`s exhaust the budget and the `200` is never reached.  In general
the delay before 0-based attempt `n` (`n ≥ 1`; no sleep precedes
attempt 0) is `⌊basePause · (1 << n) + jit⌋` where the shift wraps at
Int32 (`jsShl1`) and the jitter term `jit` lies in
`[0, 0.3 · basePause · (1 << n))` when the wrapped shift is positive
and in `(0.3 · basePause · (1 << n), 0]` when it has wrapped negative
(`n ≡ 31 mod 32`). -/
theorem c6_backoff_amended (j : ℕ → ℚ) :
    (bitrixFetch (retryCfg j)).result = .apiErr "server_error" (some 500) ∧
    (bitrixFetch (retryCfg j)).attempts = 3 ∧
    (bitrixFetch (retryCfg j)).sleeps =
      [(1, ⌊(20 : ℚ) + j 1 * 6⌋), (2, ⌊(40 : ℚ) + j 2 * 12⌋)] ∧
    (∀ cfg : FetchCfg, 0 < cfg.pause → (∀ n, 0 ≤ cfg.jitter n ∧ cfg.jitter n < 1) →
      ∀ pr ∈ (bitrixFetch cfg).sleeps, 1 ≤ pr.1 ∧
        ∃ jit : ℚ,
          pr.2 = ⌊cfg.pause * (jsShl1 pr.1 : ℚ) + jit⌋ ∧
          (0 < (jsShl1 pr.1 : ℚ) →
            0 ≤ jit ∧ jit < (3 / 10) * (cfg.pause * (jsShl1 pr.1 : ℚ))) ∧
          ((jsShl1 pr.1 : ℚ) < 0 →
            (3 / 10) * (cfg.pause * (jsShl1 pr.1 : ℚ)) < jit ∧ jit ≤ 0)) := by
  refine ⟨by rw [retry_run_eval], by rw [retry_run_eval], by rw [retry_run_eval], ?_⟩
  intro cfg hp hjit pr hmem
  have hspec := fetchGo_sleeps_spec cfg cfg.tryes.toNat 0 cfg.tryes rfl (by omega) pr hmem
  obtain ⟨h1, hwb⟩ := hspec
  refine ⟨h1, cfg.jitter pr.1 * (3 / 10) * (cfg.pause * (jsShl1 pr.1 : ℚ)), ?_, ?_, ?_⟩
  · unfold waitBackoff at hwb
    rw [if_neg (by positivity : ¬ cfg.pause = 0)] at hwb
    have := Option.some.inj hwb
    rw [← this]
  · intro hpos
    have hep : 0 < cfg.pause * (jsShl1 pr.1 : ℚ) := mul_pos hp hpos
    constructor
    · exact mul_nonneg (mul_nonneg (hjit pr.1).1 (by norm_num)) (le_of_lt hep)
    · nlinarith [mul_pos hep (sub_pos.mpr (hjit pr.1).2)]
  · intro hneg
    have hep : cfg.pause * (jsShl1 pr.1 : ℚ) < 0 := mul_neg_of_pos_of_neg hp hneg
    constructor
    · nlinarith [mul_pos_of_neg_of_neg hep (sub_neg.mpr (hjit pr.1).2)]
    · exact mul_nonpos_iff.mpr (Or.inl ⟨mul_nonneg (hjit pr.1).1 (by norm_num), le_of_lt hep⟩)

/-- C6 counterexample: with zero jitter the scenario sleeps twice (20 ms
and 40 ms), not three times with 10/20/40 ms, and ends in `server_error`
rather than the parsed success response. -/
theorem c6_scenario_counterexample :
    (bitrixFetch (retryCfg (fun _ => 0))).result = .apiErr "server_error" (some 500) ∧
    (bitrixFetch (retryCfg (fun _ => 0))).attempts = 3 ∧
    (bitrixFetch (retryCfg (fun _ => 0))).sleeps = [(1, 20), (2, 40)] := by
  rw [retry_run_eval]
  norm_num

/-- C6 witness: the amended theorem applied at zero jitter to the first
sleep entry of the scenario run. -/
theorem c6_backoff_amended_witness :
    ((1, (20 : ℤ)) ∈ (bitrixFetch (retryCfg (fun _ => 0))).sleeps ∧
      (0 : ℚ) < (retryCfg (fun _ => 0)).pause ∧
      (∀ n, 0 ≤ (retryCfg (fun _ => 0)).jitter n ∧ (retryCfg (fun _ => 0)).jitter n < 1)) ∧
    (1 ≤ 1 ∧ ∃ jit : ℚ,
      (20 : ℤ) = ⌊(retryCfg (fun _ => 0)).pause * (jsShl1 1 : ℚ) + jit⌋ ∧
      (0 < (jsShl1 1 : ℚ) →
        0 ≤ jit ∧ jit < (3 / 10) * ((retryCfg (fun _ => 0)).pause * (jsShl1 1 : ℚ))) ∧
      ((jsShl1 1 : ℚ) < 0 →
        (3 / 10) * ((retryCfg (fun _ => 0)).pause * (jsShl1 1 : ℚ)) < jit ∧ jit ≤ 0)) := by
  have hmem : ((1, (20 : ℤ))) ∈ (bitrixFetch (retryCfg (fun _ => 0))).sleeps := by
    rw [retry_run_eval]
    norm_num
  refine ⟨⟨hmem, by norm_num [retryCfg], fun n => by norm_num [retryCfg]⟩, ?_⟩
  exact (c6_backoff_amended (fun _ => 0)).2.2.2 (retryCfg (fun _ => 0))
    (by norm_num [retryCfg]) (fun n => by norm_num [retryCfg]) (1, 20) hmem

/-! ### C8 — logger redaction of sensitive field names -/

theorem fieldAt_str {s : String} {d : ℕ} {k : String} {w : JsVal} :
    ¬ FieldAt (.str s) d k w := fun h => nomatch h

theorem fieldAt_num {n : Int} {d : ℕ} {k : String} {w : JsVal} :
    ¬ FieldAt (.num n) d k w := fun h => nomatch h

theorem fieldAt_bool {b : Bool} {d : ℕ} {k : String} {w : JsVal} :
    ¬ FieldAt (.boolVal b) d k w := fun h => nomatch h

theorem fieldAt_null {d : ℕ} {k : String} {w : JsVal} :
    ¬ FieldAt .jsNull d k w := fun h => nomatch h

theorem fieldAt_undef {d : ℕ} {k : String} {w : JsVal} :
    ¬ FieldAt .undef d k w := fun h => nomatch h

theorem elemMem_stackLinesAux :
    ∀ (L : List String) (v : JsVal), ElemMem (stackLinesAux L) v → ∃ t, v = .str t := by
  intro L
  induction L with
  | nil => intro v h; exact h.elim
  | cons s rest ih =>
    intro v h
    rcases h with h | h
    · exact ⟨s, h.symm⟩
    · exact ih v h

theorem fieldAt_stackLines {s : String} {d : ℕ} {k : String} {w : JsVal} :
    ¬ FieldAt (stackLines s) d k w := by
  intro h
  unfold stackLines at h
  cases h with
  | inArr hmem hsub =>
    obtain ⟨t, rfl⟩ := elemMem_stackLinesAux _ _ hmem
    exact fieldAt_str hsub

theorem scrubF_mem :
    (fs : JsFields) → ScrubF fs → ∀ (k : String) (v : JsVal), FieldMem fs k v →
      (SENSITIVE_PARAMS.contains k = true → v = .str REDACTED) ∧ ScrubV v
  | .nil => fun _ _ _ h => h.elim
  | .cons k0 v0 rest => by
    intro hS k v hm
    obtain ⟨h1, h2, h3⟩ := hS
    rcases hm with ⟨hk, hv⟩ | hm
    · subst hk; subst hv; exact ⟨h1, h2⟩
    · exact scrubF_mem rest h3 k v hm

theorem scrubE_mem :
    (es : JsElems) → ScrubE es → ∀ (v : JsVal), ElemMem es v → ScrubV v
  | .nil => fun _ _ h => h.elim
  | .cons v0 rest => by
    intro hS v hm
    obtain ⟨h1, h2⟩ := hS
    rcases hm with hv | hm
    · rw [← hv]; exact h1
    · exact scrubE_mem rest h2 v hm

theorem scrubV_fieldAt :
    ∀ {v : JsVal} {d : ℕ} {k : String} {w : JsVal}, FieldAt v d k w → ScrubV v →
      SENSITIVE_PARAMS.contains k = true → w = .str REDACTED := by
  intro v d k w h
  induction h with
  | here hm => intro hS hk; exact (scrubF_mem _ hS _ _ hm).1 hk
  | inObj hm hsub ih => intro hS hk; exact ih ((scrubF_mem _ hS _ _ hm).2) hk
  | inArr hm hsub ih => intro hS hk; exact ih (scrubE_mem _ hS _ hm) hk

theorem out10F_mem :
    (fs : JsFields) → Out10F fs → ∀ (k : String) (v : JsVal), FieldMem fs k v →
      (scrubNames.contains k = true → v = .str REDACTED ∨ v = .str DEPTH_LIMIT_MSG) ∧
        Out10V v
  | .nil => fun _ _ _ h => h.elim
  | .cons k0 v0 rest => by
    intro hS k v hm
    obtain ⟨h1, h2, h3⟩ := hS
    rcases hm with ⟨hk, hv⟩ | hm
    · subst hk; subst hv; exact ⟨h1, h2⟩
    · exact out10F_mem rest h3 k v hm

theorem out10E_mem :
    (es : JsElems) → Out10E es → ∀ (v : JsVal), ElemMem es v → Out10V v
  | .nil => fun _ _ h => h.elim
  | .cons v0 rest => by
    intro hS v hm
    obtain ⟨h1, h2⟩ := hS
    rcases hm with hv | hm
    · rw [← hv]; exact h1
    · exact out10E_mem rest h2 v hm

theorem out10V_fieldAt :
    ∀ {v : JsVal} {d : ℕ} {k : String} {w : JsVal}, FieldAt v d k w → Out10V v →
      scrubNames.contains k = true →
      w = .str REDACTED ∨ w = .str DEPTH_LIMIT_MSG := by
  intro v d k w h
  induction h with
  | here hm => intro hS hk; exact (out10F_mem _ hS _ _ hm).1 hk
  | inObj hm hsub ih => intro hS hk; exact ih ((out10F_mem _ hS _ _ hm).2) hk
  | inArr hm hsub ih => intro hS hk; exact ih (out10E_mem _ hS _ hm) hk

mutual

theorem scrubV_procNested (mu : String → String) : (v : JsVal) → ScrubV (procNested mu v)
  | .str _ => trivial
  | .num _ => trivial
  | .boolVal _ => trivial
  | .jsNull => trivial
  | .undef => trivial
  | .obj fs => scrubF_procFields mu fs
  | .arr es => scrubE_procElems mu es

theorem scrubF_procFields (mu : String → String) :
    (fs : JsFields) → ScrubF (procNestedFields mu fs)
  | .nil => trivial
  | .cons k v rest => by
    refine ⟨?_, ?_, scrubF_procFields mu rest⟩
    · intro hk
      unfold procFieldVal
      rw [if_pos hk]
    · by_cases hk : SENSITIVE_PARAMS.contains k = true
      · unfold procFieldVal
        rw [if_pos hk]
        trivial
      · unfold procFieldVal
        rw [if_neg hk]
        cases v with
        | str s => dsimp only; split <;> trivial
        | obj fs2 => exact scrubF_procFields mu fs2
        | arr es2 => exact scrubE_procElems mu es2
        | num n => trivial
        | boolVal b => trivial
        | jsNull => trivial
        | undef => trivial

theorem scrubE_procElems (mu : String → String) :
    (es : JsElems) → ScrubE (procNestedElems mu es)
  | .nil => trivial
  | .cons v rest => by
    refine ⟨?_, scrubE_procElems mu rest⟩
    unfold procElemVal
    cases v with
    | str s => dsimp only; split <;> trivial
    | obj fs2 => exact scrubF_procFields mu fs2
    | arr es2 => exact scrubE_procElems mu es2
    | num n => trivial
    | boolVal b => trivial
    | jsNull => trivial
    | undef => trivial

end

theorem prepFS_str (mu : String → String) (dep : ℕ) (s : String) :
    prepFS mu dep (.str s) = if 10 < dep then .str DEPTH_LIMIT_MSG else .str s := by
  unfold prepFS
  split <;> rfl

theorem prepFS_obj (mu : String → String) (dep : ℕ) (fs : JsFields) :
    prepFS mu dep (.obj fs) =
      if 10 < dep then .str DEPTH_LIMIT_MSG else .obj (prepFSFields mu dep fs) := by
  unfold prepFS
  split <;> rfl

theorem prepFS_arr (mu : String → String) (dep : ℕ) (es : JsElems) :
    prepFS mu dep (.arr es) =
      if 10 < dep then .str DEPTH_LIMIT_MSG else .arr (prepFSElems mu dep es) := by
  unfold prepFS
  split <;> rfl

theorem out10E_stackLinesAux : ∀ (L : List String), Out10E (stackLinesAux L) := by
  intro L
  induction L with
  | nil => trivial
  | cons s rest ih => exact ⟨trivial, ih⟩

theorem out10_stackLines (s : String) : Out10V (stackLines s) :=
  out10E_stackLinesAux _

theorem mem_scrubNames_cases {k : String} (h : scrubNames.contains k = true) :
    k = "auth" ∨ k = "access_token" ∨ k = "refresh_token" ∨ k = "client_secret" ∨
    k = "token" ∨ k = "password" ∨ k = "key" ∨ k = "secret" ∨ k = "code" ∨
    k = "Authorization" := by
  simp [scrubNames, SENSITIVE_PARAMS] at h
  tauto

theorem prepFieldVal_nonsafe_redacted (mu : String → String) (dep : ℕ) (k : String)
    (hsafe : ¬ SAFE_STRINGIFY_REDACT.contains k = true)
    (hst : ¬ k = "stack")
    (hurl : strIncludes (strLower k) "url" = false) :
    prepFieldVal mu dep k (.str REDACTED) = .str REDACTED ∨
      prepFieldVal mu dep k (.str REDACTED) = .str DEPTH_LIMIT_MSG := by
  unfold prepFieldVal
  rw [if_neg hsafe]
  dsimp only
  rw [if_neg hst]
  rw [if_neg (show ¬ (strIncludes REDACTED "http" || strIncludes (strLower k) "url") = true by
    rw [hurl]; decide)]
  rw [prepFS_str]
  split
  · exact Or.inr rfl
  · exact Or.inl rfl

mutual

theorem out10_prepFS : (v : JsVal) → ∀ (mu : String → String) (dep : ℕ),
    ScrubV v → Out10V (prepFS mu dep v)
  | .str s => fun mu dep _ => by rw [prepFS_str]; split <;> trivial
  | .num n => fun mu dep _ => by unfold prepFS; split <;> trivial
  | .boolVal b => fun mu dep _ => by unfold prepFS; split <;> trivial
  | .jsNull => fun mu dep _ => by unfold prepFS; split <;> trivial
  | .undef => fun mu dep _ => by unfold prepFS; split <;> trivial
  | .obj fs => fun mu dep h => by
    rw [prepFS_obj]
    split
    · trivial
    · exact out10F_prepFSFields fs mu dep h
  | .arr es => fun mu dep h => by
    rw [prepFS_arr]
    split
    · trivial
    · exact out10E_prepFSElems es mu dep h

theorem out10_prepFieldVal : (v : JsVal) → ∀ (mu : String → String) (dep : ℕ) (k : String),
    ScrubV v → Out10V (prepFieldVal mu dep k v)
  | .str s => fun mu dep k _ => by
    by_cases hsafe : SAFE_STRINGIFY_REDACT.contains k = true
    · unfold prepFieldVal
      rw [if_pos hsafe]
      trivial
    · unfold prepFieldVal
      rw [if_neg hsafe]
      dsimp only
      by_cases hst : k = "stack"
      · rw [if_pos hst]
        exact out10_stackLines s
      · rw [if_neg hst]
        split
        · trivial
        · rw [prepFS_str]; split <;> trivial
  | .obj fs2 => fun mu dep k h => by
    by_cases hsafe : SAFE_STRINGIFY_REDACT.contains k = true
    · unfold prepFieldVal
      rw [if_pos hsafe]
      trivial
    · unfold prepFieldVal
      rw [if_neg hsafe]
      show Out10V (prepFS mu (dep + 1) (.obj fs2))
      rw [prepFS_obj]
      split
      · trivial
      · exact out10F_prepFSFields fs2 mu (dep + 1) h
  | .arr es2 => fun mu dep k h => by
    by_cases hsafe : SAFE_STRINGIFY_REDACT.contains k = true
    · unfold prepFieldVal
      rw [if_pos hsafe]
      trivial
    · unfold prepFieldVal
      rw [if_neg hsafe]
      show Out10V (prepFS mu (dep + 1) (.arr es2))
      rw [prepFS_arr]
      split
      · trivial
      · exact out10E_prepFSElems es2 mu (dep + 1) h
  | .num n => fun mu dep k _ => by
    by_cases hsafe : SAFE_STRINGIFY_REDACT.contains k = true
    · unfold prepFieldVal
      rw [if_pos hsafe]
      trivial
    · unfold prepFieldVal
      rw [if_neg hsafe]
      show Out10V (prepFS mu (dep + 1) (.num n))
      unfold prepFS
      split <;> trivial
  | .boolVal b => fun mu dep k _ => by
    by_cases hsafe : SAFE_STRINGIFY_REDACT.contains k = true
    · unfold prepFieldVal
      rw [if_pos hsafe]
      trivial
    · unfold prepFieldVal
      rw [if_neg hsafe]
      show Out10V (prepFS mu (dep + 1) (.boolVal b))
      unfold prepFS
      split <;> trivial
  | .jsNull => fun mu dep k _ => by
    by_cases hsafe : SAFE_STRINGIFY_REDACT.contains k = true
    · unfold prepFieldVal
      rw [if_pos hsafe]
      trivial
    · unfold prepFieldVal
      rw [if_neg hsafe]
      show Out10V (prepFS mu (dep + 1) .jsNull)
      unfold prepFS
      split <;> trivial
  | .undef => fun mu dep k _ => by
    by_cases hsafe : SAFE_STRINGIFY_REDACT.contains k = true
    · unfold prepFieldVal
      rw [if_pos hsafe]
      trivial
    · unfold prepFieldVal
      rw [if_neg hsafe]
      show Out10V (prepFS mu (dep + 1) .undef)
      unfold prepFS
      split <;> trivial

theorem out10F_prepFSFields : (fs : JsFields) → ∀ (mu : String → String) (dep : ℕ),
    ScrubF fs → Out10F (prepFSFields mu dep fs)
  | .nil => fun _ _ _ => by unfold prepFSFields; trivial
  | .cons k v rest => fun mu dep h => by
    obtain ⟨h1, h2, h3⟩ := h
    unfold prepFSFields
    refine ⟨?_, out10_prepFieldVal v mu dep k h2, out10F_prepFSFields rest mu dep h3⟩
    intro hk
    by_cases hsafe : SAFE_STRINGIFY_REDACT.contains k = true
    · left
      unfold prepFieldVal
      rw [if_pos hsafe]
    · rcases mem_scrubNames_cases hk with rfl | rfl | rfl | rfl | rfl | rfl | rfl | rfl | rfl | rfl
      · exact absurd (by decide) hsafe
      · exact absurd (by decide) hsafe
      · exact absurd (by decide) hsafe
      · rw [h1 (by decide)]
        exact prepFieldVal_nonsafe_redacted mu dep _ hsafe (by decide) (by decide)
      · rw [h1 (by decide)]
        exact prepFieldVal_nonsafe_redacted mu dep _ hsafe (by decide) (by decide)
      · rw [h1 (by decide)]
        exact prepFieldVal_nonsafe_redacted mu dep _ hsafe (by decide) (by decide)
      · rw [h1 (by decide)]
        exact prepFieldVal_nonsafe_redacted mu dep _ hsafe (by decide) (by decide)
      · rw [h1 (by decide)]
        exact prepFieldVal_nonsafe_redacted mu dep _ hsafe (by decide) (by decide)
      · rw [h1 (by decide)]
        exact prepFieldVal_nonsafe_redacted mu dep _ hsafe (by decide) (by decide)
      · exact absurd (by decide) hsafe

theorem out10E_prepFSElems : (es : JsElems) → ∀ (mu : String → String) (dep : ℕ),
    ScrubE es → Out10E (prepFSElems mu dep es)
  | .nil => fun _ _ _ => by unfold prepFSElems; trivial
  | .cons v rest => fun mu dep h => by
    obtain ⟨h1, h2⟩ := h
    unfold prepFSElems
    exact ⟨out10_prepFS v mu (dep + 1) h1, out10E_prepFSElems rest mu dep h2⟩

end


theorem processLogData_obj_eq (mu : String → String) (jp : String → Option JsVal)
    (fs : JsFields) :
    processLogData mu jp (.obj fs) = .obj (processedLogFields mu jp fs) := rfl

theorem scrubV_topFieldVal (mu : String → String) (k : String) : (v : JsVal) →
    ScrubV (topFieldVal mu k v)
  | .str s => by unfold topFieldVal; dsimp only; split <;> trivial
  | .obj fs => scrubF_procFields mu fs
  | .arr es => scrubE_procElems mu es
  | .num _ => trivial
  | .boolVal _ => trivial
  | .jsNull => trivial
  | .undef => trivial

theorem allScrubF_processTopFields (mu : String → String) :
    (fs : JsFields) → ∀ k v, FieldMem (processTopFields mu fs) k v → ScrubV v
  | .nil => fun _ _ h => h.elim
  | .cons k0 v0 rest => fun k v hm => by
    rcases hm with ⟨hk, hv⟩ | hm
    · rw [← hv]; exact scrubV_topFieldVal mu k0 v0
    · exact allScrubF_processTopFields mu rest k v hm

theorem mem_delField : (fs : JsFields) → ∀ (k0 k : String) (v : JsVal),
    FieldMem (delField fs k0) k v → FieldMem fs k v
  | .nil => fun _ _ _ h => h.elim
  | .cons k1 v1 rest => fun k0 k v h => by
    unfold delField at h
    by_cases he : k1 = k0
    · rw [if_pos he] at h
      exact Or.inr (mem_delField rest k0 k v h)
    · rw [if_neg he] at h
      rcases h with ⟨hk, hv⟩ | h
      · exact Or.inl ⟨hk, hv⟩
      · exact Or.inr (mem_delField rest k0 k v h)

theorem mem_mapField : (fs : JsFields) → ∀ (k0 : String) (f : JsVal → JsVal) (k : String)
    (v : JsVal), FieldMem (mapField fs k0 f) k v →
      ∃ v0, FieldMem fs k v0 ∧ (v = v0 ∨ v = f v0)
  | .nil => fun _ _ _ _ h => h.elim
  | .cons k1 v1 rest => fun k0 f k v h => by
    unfold mapField at h
    by_cases he : k1 = k0
    · rw [if_pos he] at h
      rcases h with ⟨hk, hv⟩ | h
      · exact ⟨v1, Or.inl ⟨hk, rfl⟩, Or.inr hv.symm⟩
      · exact ⟨v, Or.inr h, Or.inl rfl⟩
    · rw [if_neg he] at h
      rcases h with ⟨hk, hv⟩ | h
      · exact ⟨v1, Or.inl ⟨hk, rfl⟩, Or.inl hv.symm⟩
      · obtain ⟨v0, hm, hv⟩ := mem_mapField rest k0 f k v h
        exact ⟨v0, Or.inr hm, hv⟩

theorem mem_prepFSFields : (fs : JsFields) → ∀ (mu : String → String) (dep : ℕ)
    (k : String) (v : JsVal), FieldMem (prepFSFields mu dep fs) k v →
      ∃ v0, FieldMem fs k v0 ∧ v = prepFieldVal mu dep k v0
  | .nil => fun mu dep _ _ h => by
    unfold prepFSFields at h
    exact h.elim
  | .cons k1 v1 rest => fun mu dep k v h => by
    unfold prepFSFields at h
    rcases h with ⟨hk, hv⟩ | h
    · subst hk
      exact ⟨v1, Or.inl ⟨rfl, rfl⟩, hv.symm⟩
    · obtain ⟨v0, hm, he⟩ := mem_prepFSFields rest mu dep k v h
      exact ⟨v0, Or.inr hm, he⟩

theorem scrubV_formatRequestBody (jp : String → Option JsVal)
    (hjson : ∀ s j, jp s = some j → ScrubV j) : (v : JsVal) → ScrubV v →
      ScrubV (formatRequestBody jp v)
  | .str s => fun _ => by
    unfold formatRequestBody
    dsimp only
    cases hj : jp s with
    | some j => exact hjson s j hj
    | none =>
      dsimp only
      split <;> trivial
  | .obj fs => fun h => h
  | .arr es => fun h => h
  | .num _ => fun _ => trivial
  | .boolVal _ => fun _ => trivial
  | .jsNull => fun _ => trivial
  | .undef => fun _ => trivial

theorem allScrub_processedLogFields (mu : String → String) (jp : String → Option JsVal)
    (hjson : ∀ s j, jp s = some j → ScrubV j) (fs : JsFields) :
    ∀ k v, FieldMem (processedLogFields mu jp fs) k v → ScrubV v := by
  have step3 := allScrubF_processTopFields mu
    (mapField (delField fs "headers") "url" (maskUrlStep mu))
  have hmap : ∀ k v,
      FieldMem (mapField
          (processTopFields mu (mapField (delField fs "headers") "url" (maskUrlStep mu)))
          "body" (formatRequestBody jp)) k v → ScrubV v := by
    intro k v h
    obtain ⟨v0, hm0, hv⟩ := mem_mapField _ _ _ k v h
    rcases hv with rfl | rfl
    · exact step3 _ _ hm0
    · exact scrubV_formatRequestBody jp hjson v0 (step3 _ _ hm0)
  intro k v hm
  unfold processedLogFields at hm
  dsimp only at hm
  split at hm
  · split at hm
    · exact hmap _ _ (mem_delField _ "signal" k v hm)
    · exact hmap _ _ hm
  · split at hm
    · exact step3 _ _ (mem_delField _ "signal" k v hm)
    · exact step3 _ _ hm

theorem safe4F_mem :
    (fs : JsFields) → Safe4F fs → ∀ (k : String) (v : JsVal), FieldMem fs k v →
      (SAFE_STRINGIFY_REDACT.contains k = true →
        v = .str REDACTED ∨ v = .str DEPTH_LIMIT_MSG) ∧ Safe4V v
  | .nil => fun _ _ _ h => h.elim
  | .cons k0 v0 rest => by
    intro hS k v hm
    obtain ⟨h1, h2, h3⟩ := hS
    rcases hm with ⟨hk, hv⟩ | hm
    · subst hk; subst hv; exact ⟨h1, h2⟩
    · exact safe4F_mem rest h3 k v hm

theorem safe4E_mem :
    (es : JsElems) → Safe4E es → ∀ (v : JsVal), ElemMem es v → Safe4V v
  | .nil => fun _ _ h => h.elim
  | .cons v0 rest => by
    intro hS v hm
    obtain ⟨h1, h2⟩ := hS
    rcases hm with hv | hm
    · rw [← hv]; exact h1
    · exact safe4E_mem rest h2 v hm

theorem safe4V_fieldAt :
    ∀ {v : JsVal} {d : ℕ} {k : String} {w : JsVal}, FieldAt v d k w → Safe4V v →
      SAFE_STRINGIFY_REDACT.contains k = true →
      w = .str REDACTED ∨ w = .str DEPTH_LIMIT_MSG := by
  intro v d k w h
  induction h with
  | here hm => intro hS hk; exact (safe4F_mem _ hS _ _ hm).1 hk
  | inObj hm hsub ih => intro hS hk; exact ih ((safe4F_mem _ hS _ _ hm).2) hk
  | inArr hm hsub ih => intro hS hk; exact ih (safe4E_mem _ hS _ hm) hk

theorem safe4E_stackLinesAux : ∀ (L : List String), Safe4E (stackLinesAux L) := by
  intro L
  induction L with
  | nil => trivial
  | cons s rest ih => exact ⟨trivial, ih⟩

theorem safe4_stackLines (s : String) : Safe4V (stackLines s) :=
  safe4E_stackLinesAux _

mutual

theorem safe4_prepFS : (v : JsVal) → ∀ (mu : String → String) (dep : ℕ),
    Safe4V (prepFS mu dep v)
  | .str s => fun mu dep => by rw [prepFS_str]; split <;> trivial
  | .num n => fun mu dep => by unfold prepFS; split <;> trivial
  | .boolVal b => fun mu dep => by unfold prepFS; split <;> trivial
  | .jsNull => fun mu dep => by unfold prepFS; split <;> trivial
  | .undef => fun mu dep => by unfold prepFS; split <;> trivial
  | .obj fs => fun mu dep => by
    rw [prepFS_obj]
    split
    · trivial
    · exact safe4F_prepFSFields fs mu dep
  | .arr es => fun mu dep => by
    rw [prepFS_arr]
    split
    · trivial
    · exact safe4E_prepFSElems es mu dep

theorem safe4_prepFieldVal : (v : JsVal) → ∀ (mu : String → String) (dep : ℕ) (k : String),
    Safe4V (prepFieldVal mu dep k v)
  | .str s => fun mu dep k => by
    by_cases hsafe : SAFE_STRINGIFY_REDACT.contains k = true
    · unfold prepFieldVal
      rw [if_pos hsafe]
      trivial
    · unfold prepFieldVal
      rw [if_neg hsafe]
      dsimp only
      by_cases hst : k = "stack"
      · rw [if_pos hst]
        exact safe4_stackLines s
      · rw [if_neg hst]
        split
        · trivial
        · rw [prepFS_str]; split <;> trivial
  | .obj fs2 => fun mu dep k => by
    by_cases hsafe : SAFE_STRINGIFY_REDACT.contains k = true
    · unfold prepFieldVal
      rw [if_pos hsafe]
      trivial
    · unfold prepFieldVal
      rw [if_neg hsafe]
      show Safe4V (prepFS mu (dep + 1) (.obj fs2))
      rw [prepFS_obj]
      split
      · trivial
      · exact safe4F_prepFSFields fs2 mu (dep + 1)
  | .arr es2 => fun mu dep k => by
    by_cases hsafe : SAFE_STRINGIFY_REDACT.contains k = true
    · unfold prepFieldVal
      rw [if_pos hsafe]
      trivial
    · unfold prepFieldVal
      rw [if_neg hsafe]
      show Safe4V (prepFS mu (dep + 1) (.arr es2))
      rw [prepFS_arr]
      split
      · trivial
      · exact safe4E_prepFSElems es2 mu (dep + 1)
  | .num n => fun mu dep k => by
    by_cases hsafe : SAFE_STRINGIFY_REDACT.contains k = true
    · unfold prepFieldVal
      rw [if_pos hsafe]
      trivial
    · unfold prepFieldVal
      rw [if_neg hsafe]
      show Safe4V (prepFS mu (dep + 1) (.num n))
      unfold prepFS
      split <;> trivial
  | .boolVal b => fun mu dep k => by
    by_cases hsafe : SAFE_STRINGIFY_REDACT.contains k = true
    · unfold prepFieldVal
      rw [if_pos hsafe]
      trivial
    · unfold prepFieldVal
      rw [if_neg hsafe]
      show Safe4V (prepFS mu (dep + 1) (.boolVal b))
      unfold prepFS
      split <;> trivial
  | .jsNull => fun mu dep k => by
    by_cases hsafe : SAFE_STRINGIFY_REDACT.contains k = true
    · unfold prepFieldVal
      rw [if_pos hsafe]
      trivial
    · unfold prepFieldVal
      rw [if_neg hsafe]
      show Safe4V (prepFS mu (dep + 1) .jsNull)
      unfold prepFS
      split <;> trivial
  | .undef => fun mu dep k => by
    by_cases hsafe : SAFE_STRINGIFY_REDACT.contains k = true
    · unfold prepFieldVal
      rw [if_pos hsafe]
      trivial
    · unfold prepFieldVal
      rw [if_neg hsafe]
      show Safe4V (prepFS mu (dep + 1) .undef)
      unfold prepFS
      split <;> trivial

theorem safe4F_prepFSFields : (fs : JsFields) → ∀ (mu : String → String) (dep : ℕ),
    Safe4F (prepFSFields mu dep fs)
  | .nil => fun _ _ => by unfold prepFSFields; trivial
  | .cons k v rest => fun mu dep => by
    unfold prepFSFields
    refine ⟨?_, safe4_prepFieldVal v mu dep k, safe4F_prepFSFields rest mu dep⟩
    intro hk
    left
    unfold prepFieldVal
    rw [if_pos hk]

theorem safe4E_prepFSElems : (es : JsElems) → ∀ (mu : String → String) (dep : ℕ),
    Safe4E (prepFSElems mu dep es)
  | .nil => fun _ _ => by unfold prepFSElems; trivial
  | .cons v rest => fun mu dep => by
    unfold prepFSElems
    exact ⟨safe4_prepFS v mu (dep + 1), safe4E_prepFSElems rest mu dep⟩

end

theorem find?_delField_ne : (fs : JsFields) → ∀ (k0 k : String), ¬ k = k0 →
    JsFields.find? (delField fs k0) k = JsFields.find? fs k
  | .nil => fun _ _ _ => rfl
  | .cons k1 v1 rest => fun k0 k hne => by
    unfold delField
    by_cases he : k1 = k0
    · rw [if_pos he]
      rw [find?_delField_ne rest k0 k hne]
      show _ = JsFields.find? (.cons k1 v1 rest) k
      simp only [JsFields.find?]
      rw [if_neg (show ¬ k1 = k from fun hh => hne (hh ▸ he))]
    · rw [if_neg he]
      simp only [JsFields.find?]
      by_cases hk : k1 = k
      · rw [if_pos hk, if_pos hk]
      · rw [if_neg hk, if_neg hk]
        exact find?_delField_ne rest k0 k hne

theorem find?_isSome_mapField : (fs : JsFields) → ∀ (k0 : String) (f : JsVal → JsVal)
    (k : String), (JsFields.find? (mapField fs k0 f) k).isSome =
      (JsFields.find? fs k).isSome
  | .nil => fun _ _ _ => rfl
  | .cons k1 v1 rest => fun k0 f k => by
    unfold mapField
    by_cases he : k1 = k0
    · rw [if_pos he]
      unfold JsFields.find?
      by_cases hk : k1 = k
      · rw [if_pos hk, if_pos hk]
        rfl
      · rw [if_neg hk, if_neg hk]
    · rw [if_neg he]
      unfold JsFields.find?
      by_cases hk : k1 = k
      · rw [if_pos hk, if_pos hk]
      · rw [if_neg hk, if_neg hk]
        exact find?_isSome_mapField rest k0 f k

theorem find?_isSome_processTopFields (mu : String → String) :
    (fs : JsFields) → ∀ (k : String),
      (JsFields.find? (processTopFields mu fs) k).isSome = (JsFields.find? fs k).isSome
  | .nil => fun _ => rfl
  | .cons k1 v1 rest => fun k => by
    show (JsFields.find? (.cons k1 (topFieldVal mu k1 v1) (processTopFields mu rest)) k).isSome = _
    unfold JsFields.find?
    by_cases hk : k1 = k
    · rw [if_pos hk, if_pos hk]
      rfl
    · rw [if_neg hk, if_neg hk]
      exact find?_isSome_processTopFields mu rest k

theorem hasFieldB_pipeline (mu : String → String) (fs : JsFields) :
    hasFieldB (processTopFields mu (mapField (delField fs "headers") "url" (maskUrlStep mu)))
      "body" = hasFieldB fs "body" := by
  unfold hasFieldB
  rw [find?_isSome_processTopFields, find?_isSome_mapField,
    find?_delField_ne _ _ _ (by decide)]

theorem allScrub_processedLogFields_nobody (mu : String → String)
    (jp : String → Option JsVal) (fs : JsFields)
    (hbody : hasFieldB fs "body" = false) :
    ∀ k v, FieldMem (processedLogFields mu jp fs) k v → ScrubV v := by
  have step3 := allScrubF_processTopFields mu
    (mapField (delField fs "headers") "url" (maskUrlStep mu))
  have hb3 : hasFieldB
      (processTopFields mu (mapField (delField fs "headers") "url" (maskUrlStep mu)))
      "body" = false := by
    rw [hasFieldB_pipeline]
    exact hbody
  intro k v hm
  unfold processedLogFields at hm
  dsimp only at hm
  rw [if_neg (show ¬ hasFieldB
      (processTopFields mu (mapField (delField fs "headers") "url" (maskUrlStep mu)))
      "body" = true from by rw [hb3]; decide)] at hm
  split at hm
  · exact step3 _ _ (mem_delField _ "signal" k v hm)
  · exact step3 _ _ hm

/-- C8 (amended): for an object log payload, the prepared log tree
redacts every binding of an `auth`/`access_token`/`refresh_token`/
`Authorization` field at every depth (to `[REDACTED]`, exactly so at the
top level, or the depth-cap placeholder deeper); and when the payload
carries no `body` field, every binding of a scrub-list name
(`SENSITIVE_PARAMS` plus `Authorization`) at depth 1 or deeper is
likewise redacted.  The other six sensitive names are not redacted at
the top level, and a string `body` is JSON-parsed after the nested
redaction pass, so parsed bodies re-introduce raw sensitive bindings —
both leaks are exhibited in the counterexample. -/
theorem c8_redaction_amended (mu : String → String) (jp : String → Option JsVal)
    (fs : JsFields) :
    (∀ d k w, FieldAt (logPrepared mu jp (.obj fs)) d k w →
        SAFE_STRINGIFY_REDACT.contains k = true →
        w = .str REDACTED ∨ w = .str DEPTH_LIMIT_MSG) ∧
    (∀ k w, FieldAt (logPrepared mu jp (.obj fs)) 0 k w →
        SAFE_STRINGIFY_REDACT.contains k = true → w = .str REDACTED) ∧
    (hasFieldB fs "body" = false →
      ∀ d k w, FieldAt (logPrepared mu jp (.obj fs)) d k w →
        scrubNames.contains k = true → 1 ≤ d →
        w = .str REDACTED ∨ w = .str DEPTH_LIMIT_MSG) := by
  have heq : logPrepared mu jp (.obj fs) =
      .obj (prepFSFields mu 0 (processedLogFields mu jp fs)) := by
    unfold logPrepared
    rw [processLogData_obj_eq, prepFS_obj, if_neg (by decide : ¬ (10 : ℕ) < 0)]
  refine ⟨?_, ?_, ?_⟩
  · intro d k w h hk
    rw [heq] at h
    cases h with
    | here hm =>
      obtain ⟨v0, hm0, hveq⟩ := mem_prepFSFields _ mu 0 _ _ hm
      subst hveq
      left
      unfold prepFieldVal
      rw [if_pos hk]
    | inObj hm hsub =>
      obtain ⟨v0, hm0, hveq⟩ := mem_prepFSFields _ mu 0 _ _ hm
      subst hveq
      exact safe4V_fieldAt hsub (safe4_prepFieldVal v0 mu 0 _) hk
  · intro k w h hk
    rw [heq] at h
    cases h with
    | here hm =>
      obtain ⟨v0, hm0, hveq⟩ := mem_prepFSFields _ mu 0 _ _ hm
      subst hveq
      unfold prepFieldVal
      rw [if_pos hk]
  · intro hbody d k w h hk hd
    have hall := allScrub_processedLogFields_nobody mu jp fs hbody
    rw [heq] at h
    cases h with
    | here hm => exact absurd hd (by decide)
    | inObj hm hsub =>
      obtain ⟨v0, hm0, hveq⟩ := mem_prepFSFields _ mu 0 _ _ hm
      subst hveq
      exact out10V_fieldAt hsub (out10_prepFieldVal v0 mu 0 _ (hall _ _ hm0)) hk

/-- C8 (counterexample to the claim as stated): two leaks.  A top-level
field named `password` — one of the claimed scrub names — reaches the
serialized output with its raw value `"hunter2"` (`_processLogData`'s
top-level loop only URL-masks strings and `prepareForStringify` redacts
only four names); and a string `body` of `{"password":"hunter2"}` is
JSON-parsed by `_formatRequestBody` after the nested-redaction pass, so
the raw `password` binding re-appears at depth 1. -/
theorem c8_password_leaks :
    (logPrepared (fun s => s) (fun _ => none)
        (.obj (.cons "password" (.str "hunter2") .nil)) =
      .obj (.cons "password" (.str "hunter2") .nil) ∧
     scrubNames.contains "password" = true ∧
     JsVal.str "hunter2" ≠ .str REDACTED ∧
     JsVal.str "hunter2" ≠ .str DEPTH_LIMIT_MSG) ∧
    (FieldAt (logPrepared (fun s => s)
        (fun s => if s = "\x7b\"password\":\"hunter2\"\x7d"
          then some (JsVal.obj (.cons "password" (.str "hunter2") .nil)) else none)
        (.obj (.cons "body" (.str "\x7b\"password\":\"hunter2\"\x7d") .nil)))
      1 "password" (.str "hunter2")) := by
  have hpf0 : prepFieldVal (fun s : String => s) 0 "password" (.str "hunter2") =
      .str "hunter2" := by
    unfold prepFieldVal
    rw [if_neg (by decide : ¬ SAFE_STRINGIFY_REDACT.contains "password" = true)]
    dsimp only
    rw [if_neg (by decide : ¬ "password" = "stack")]
    rw [if_neg (by decide :
      ¬ (strIncludes "hunter2" "http" || strIncludes (strLower "password") "url") = true)]
    rw [prepFS_str, if_neg (by decide : ¬ (10 : ℕ) < 1)]
  have hpf1 : prepFieldVal (fun s : String => s) 1 "password" (.str "hunter2") =
      .str "hunter2" := by
    unfold prepFieldVal
    rw [if_neg (by decide : ¬ SAFE_STRINGIFY_REDACT.contains "password" = true)]
    dsimp only
    rw [if_neg (by decide : ¬ "password" = "stack")]
    rw [if_neg (by decide :
      ¬ (strIncludes "hunter2" "http" || strIncludes (strLower "password") "url") = true)]
    rw [prepFS_str, if_neg (by decide : ¬ (10 : ℕ) < 2)]
  refine ⟨⟨?_, by decide, by decide, by decide⟩, ?_⟩
  · have hJ : processLogData (fun s => s) (fun _ => none)
        (.obj (.cons "password" (.str "hunter2") .nil)) =
        .obj (.cons "password" (.str "hunter2") .nil) := by decide
    have hnil : prepFSFields (fun s : String => s) 0 .nil = .nil := by
      unfold prepFSFields
      rfl
    have hcons : prepFSFields (fun s : String => s) 0
        (.cons "password" (.str "hunter2") .nil) =
        .cons "password" (.str "hunter2") .nil := by
      unfold prepFSFields
      rw [hpf0, hnil]
    unfold logPrepared
    rw [hJ, prepFS_obj, if_neg (by decide : ¬ (10 : ℕ) < 0), hcons]
  · have hJ2 : processLogData (fun s => s)
        (fun s => if s = "\x7b\"password\":\"hunter2\"\x7d"
          then some (JsVal.obj (.cons "password" (.str "hunter2") .nil)) else none)
        (.obj (.cons "body" (.str "\x7b\"password\":\"hunter2\"\x7d") .nil)) =
        .obj (.cons "body" (.obj (.cons "password" (.str "hunter2") .nil)) .nil) := by
      decide
    have hfsInner : prepFSFields (fun s : String => s) 1
        (.cons "password" (.str "hunter2") .nil) =
        .cons "password" (.str "hunter2") .nil := by
      unfold prepFSFields
      rw [hpf1]
      unfold prepFSFields
      rfl
    have hbodyFV : prepFieldVal (fun s : String => s) 0 "body"
        (.obj (.cons "password" (.str "hunter2") .nil)) =
        .obj (.cons "password" (.str "hunter2") .nil) := by
      unfold prepFieldVal
      rw [if_neg (by decide : ¬ SAFE_STRINGIFY_REDACT.contains "body" = true)]
      show prepFS (fun s : String => s) 1 (.obj (.cons "password" (.str "hunter2") .nil)) = _
      rw [prepFS_obj, if_neg (by decide : ¬ (10 : ℕ) < 1), hfsInner]
    have hW2 : logPrepared (fun s => s)
        (fun s => if s = "\x7b\"password\":\"hunter2\"\x7d"
          then some (JsVal.obj (.cons "password" (.str "hunter2") .nil)) else none)
        (.obj (.cons "body" (.str "\x7b\"password\":\"hunter2\"\x7d") .nil)) =
        .obj (.cons "body" (.obj (.cons "password" (.str "hunter2") .nil)) .nil) := by
      unfold logPrepared
      rw [hJ2, prepFS_obj, if_neg (by decide : ¬ (10 : ℕ) < 0)]
      unfold prepFSFields
      rw [hbodyFV]
      unfold prepFSFields
      rfl
    rw [hW2]
    exact FieldAt.inObj (Or.inl ⟨rfl, rfl⟩) (FieldAt.here (Or.inl ⟨rfl, rfl⟩))

/-- C8 witness: the amended theorem applied at the concrete payload
`{data: {password: "x"}}` (which has no `body` field) with the identity
URL masker and a never-succeeding `JSON.parse`; the nested `password`
binding sits at depth 1 and is the placeholder. -/
theorem c8_redaction_amended_witness :
    (hasFieldB (JsFields.cons "data"
        (.obj (.cons "password" (.str "x") .nil)) .nil) "body" = false ∧
      FieldAt (logPrepared (fun s => s) (fun _ => none)
          (.obj (.cons "data" (.obj (.cons "password" (.str "x") .nil)) .nil)))
        1 "password" (.str REDACTED) ∧
      scrubNames.contains "password" = true ∧ 1 ≤ 1) ∧
    (JsVal.str REDACTED = .str REDACTED ∨ JsVal.str REDACTED = .str DEPTH_LIMIT_MSG) := by
  have hJ : processLogData (fun s => s) (fun _ => none)
      (.obj (.cons "data" (.obj (.cons "password" (.str "x") .nil)) .nil)) =
      .obj (.cons "data" (.obj (.cons "password" (.str REDACTED) .nil)) .nil) := by decide
  have hinner : prepFieldVal (fun s : String => s) 1 "password" (.str REDACTED) =
      .str REDACTED := by
    unfold prepFieldVal
    rw [if_neg (by decide : ¬ SAFE_STRINGIFY_REDACT.contains "password" = true)]
    dsimp only
    rw [if_neg (by decide : ¬ "password" = "stack")]
    rw [if_neg (by decide :
      ¬ (strIncludes REDACTED "http" || strIncludes (strLower "password") "url") = true)]
    rw [prepFS_str, if_neg (by decide : ¬ (10 : ℕ) < 2)]
  have hinnerFs : prepFSFields (fun s : String => s) 1
      (.cons "password" (.str REDACTED) .nil) =
      .cons "password" (.str REDACTED) .nil := by
    unfold prepFSFields
    rw [hinner]
    unfold prepFSFields
    rfl
  have hdata : prepFieldVal (fun s : String => s) 0 "data"
      (.obj (.cons "password" (.str REDACTED) .nil)) =
      .obj (.cons "password" (.str REDACTED) .nil) := by
    unfold prepFieldVal
    rw [if_neg (by decide : ¬ SAFE_STRINGIFY_REDACT.contains "data" = true)]
    show prepFS (fun s : String => s) 1 (.obj (.cons "password" (.str REDACTED) .nil)) = _
    rw [prepFS_obj, if_neg (by decide : ¬ (10 : ℕ) < 1), hinnerFs]
  have hW : logPrepared (fun s => s) (fun _ => none)
      (.obj (.cons "data" (.obj (.cons "password" (.str "x") .nil)) .nil)) =
      .obj (.cons "data" (.obj (.cons "password" (.str REDACTED) .nil)) .nil) := by
    unfold logPrepared
    rw [hJ, prepFS_obj, if_neg (by decide : ¬ (10 : ℕ) < 0)]
    unfold prepFSFields
    rw [hdata]
    unfold prepFSFields
    rfl
  have hAt : FieldAt (logPrepared (fun s => s) (fun _ => none)
      (.obj (.cons "data" (.obj (.cons "password" (.str "x") .nil)) .nil)))
      1 "password" (.str REDACTED) := by
    rw [hW]
    exact FieldAt.inObj (Or.inl ⟨rfl, rfl⟩) (FieldAt.here (Or.inl ⟨rfl, rfl⟩))
  exact ⟨⟨by decide, hAt, by decide, by decide⟩,
    (c8_redaction_amended (fun s => s) (fun _ => none)
        (.cons "data" (.obj (.cons "password" (.str "x") .nil)) .nil)).2.2
      (by decide) 1 "password" (.str REDACTED) hAt (by decide) (by decide)⟩

end B24
